import Mathlib

/-!
Verification of the client-side order-book pipeline of a market-dashboard
repository: the pure order-book update processor
(sortOrderBookEntries, processOrderBookUpdates, createOrderBookSnapshot,
calculateMidPrice), the display aggregation transform
(aggregateOrderBookData), the reconnection backoff policy, the streaming
client's reference-counted subscription registry, and the price-update
callback dispatch.

JavaScript numbers are modelled exactly as `Option ℚ`, with `none`
standing for NaN (and for the non-finite results of dividing by zero,
which are unreachable under the guards of the code modelled here);
arithmetic is exact rather than IEEE-754 rounded.  `parseFloat` is
modelled on the sign/digits/fraction/exponent fragment of its grammar,
returning `none` exactly when no digit is consumed.
-/

/-- A JavaScript number: `none` models NaN. -/
abbrev JSNum := Option ℚ

/-- Addition on ℚ computed through `mkRat` on numerators and
denominators; equal to `a + b` (lemma `qAdd_eq` below) but, unlike the
irreducible `Rat.add`, evaluable by the kernel, so that concrete runs of
the model can be checked with `decide`. -/
def qAdd (a b : ℚ) : ℚ := mkRat (a.num * b.den + b.num * a.den) (a.den * b.den)

/-- Multiplication on ℚ computed through `mkRat`; equal to `a * b`. -/
def qMul (a b : ℚ) : ℚ := mkRat (a.num * b.num) (a.den * b.den)

/-- Inverse on ℚ computed through `mkRat`; equal to `b⁻¹`. -/
def qInv (b : ℚ) : ℚ :=
  if 0 ≤ b.num then mkRat (b.den : Int) b.num.natAbs
  else mkRat (-(b.den : Int)) b.num.natAbs

/-- Division on ℚ computed through `mkRat`; equal to `a / b`. -/
def qDiv (a b : ℚ) : ℚ := qMul a (qInv b)

/-- Value of a digit string, most significant digit first. -/
def digitsVal (cs : List Char) : Nat :=
  cs.foldl (fun a c => a * 10 + (c.toNat - 48)) 0

/-- Whitespace skipped by JS parseFloat before the number. -/
def isSpaceChar (c : Char) : Bool :=
  c == ' ' || c == '\t' || c == '\n' || c == '\r'

/-- Exponent suffix of a JS number literal: an optional sign and digits.
When no digit follows, parseFloat backtracks and the exponent is 0. -/
def parseExpPart (cs : List Char) : Int :=
  match cs with
  | '-' :: r =>
      if (r.takeWhile Char.isDigit).isEmpty then 0
      else -(digitsVal (r.takeWhile Char.isDigit) : Int)
  | '+' :: r =>
      if (r.takeWhile Char.isDigit).isEmpty then 0
      else (digitsVal (r.takeWhile Char.isDigit) : Int)
  | r =>
      if (r.takeWhile Char.isDigit).isEmpty then 0
      else (digitsVal (r.takeWhile Char.isDigit) : Int)

/-- Model of JS `parseFloat`: skip whitespace, read an optional sign,
integer digits, an optional fraction and an optional exponent, ignoring
everything after the longest numeric prefix; NaN (`none`) when no digit
was read. -/
def parseFloat (s : String) : JSNum :=
  let cs0 := s.data.dropWhile isSpaceChar
  let sgn : Int := match cs0 with | '-' :: _ => -1 | _ => 1
  let cs1 := match cs0 with | '-' :: r => r | '+' :: r => r | _ => cs0
  let ip := cs1.takeWhile Char.isDigit
  let r1 := cs1.dropWhile Char.isDigit
  let fp := match r1 with | '.' :: r => r.takeWhile Char.isDigit | _ => []
  let r2 := match r1 with | '.' :: r => r.dropWhile Char.isDigit | _ => r1
  if ip.isEmpty && fp.isEmpty then none
  else
    let ex : Int := match r2 with
      | 'e' :: r3 => parseExpPart r3
      | 'E' :: r3 => parseExpPart r3
      | _ => 0
    let mantNum : Int := sgn * ((digitsVal ip : Int) * 10 ^ fp.length + (digitsVal fp : Int))
    if 0 ≤ ex then some (mkRat (mantNum * 10 ^ ex.toNat) (10 ^ fp.length))
    else some (mkRat mantNum (10 ^ fp.length * 10 ^ (-ex).toNat))

/-- JS addition: NaN absorbs. -/
def jsAdd : JSNum → JSNum → JSNum
  | some a, some b => some (qAdd a b)
  | _, _ => none

/-- JS multiplication: NaN absorbs. -/
def jsMul : JSNum → JSNum → JSNum
  | some a, some b => some (qMul a b)
  | _, _ => none

/-- JS division: NaN absorbs; division by zero (an infinity in JS, and
unreachable under the guards of the code modelled here) is mapped to
`none` as a non-finite value. -/
def jsDivN : JSNum → JSNum → JSNum
  | some a, some b => if b = 0 then none else some (qDiv a b)
  | _, _ => none

/-- JS Math.floor lifted to NaN. -/
def jsFloor : JSNum → JSNum
  | some a => some ((⌊a⌋ : Int) : ℚ)
  | none => none

/-- JS Math.ceil lifted to NaN. -/
def jsCeil : JSNum → JSNum
  | some a => some ((⌈a⌉ : Int) : ℚ)
  | none => none

/-- JS Math.round (half toward plus infinity) lifted to NaN. -/
def jsRound : JSNum → JSNum
  | some a => some ((⌊qAdd a (mkRat 1 2)⌋ : Int) : ℚ)
  | none => none

/-- The JS comparison `x <= 0`, false on NaN. -/
def jsLeZero : JSNum → Bool
  | some a => decide (a ≤ 0)
  | none => false

/-- Order-book side, the `'bid' | 'offer'` union of the source. -/
inductive Side
  | bid
  | offer
deriving DecidableEq, Repr

/-- OrderBookEntry of src/types/websocket.ts: price and size are kept as
decimal strings end-to-end. -/
structure OrderBookEntry where
  price : String
  size : String
  exchange : String
deriving DecidableEq, Repr

/-- CoinbaseOrderBookUpdate of src/types/websocket.ts. -/
structure CoinbaseOrderBookUpdate where
  side : Side
  price_level : String
  new_quantity : String
  exchange : Option String
deriving DecidableEq, Repr

/-- OrderBookData of src/types/websocket.ts; the Date timestamp is
abstracted to a numeric stamp. -/
structure OrderBookData where
  bids : List OrderBookEntry
  asks : List OrderBookEntry
  lastUpdated : Option Nat
deriving DecidableEq, Repr

/-- WEBSOCKET_CONFIG.ORDER_BOOK_DEPTH. -/
def ORDER_BOOK_DEPTH : Nat := 10

/-- WEBSOCKET_CONFIG.RECONNECT_BASE_DELAY (ms). -/
def RECONNECT_BASE_DELAY : Nat := 1000

/-- WEBSOCKET_CONFIG.MAX_RECONNECT_DELAY (ms). -/
def MAX_RECONNECT_DELAY : Nat := 30000

/-- WEBSOCKET_CONFIG.MAX_RECONNECT_ATTEMPTS. -/
def MAX_RECONNECT_ATTEMPTS : Nat := 5

/-- WEBSOCKET_CONFIG.NORMAL_CLOSURE_CODE. -/
def NORMAL_CLOSURE_CODE : Nat := 1000

/-- Numeric sort key of an entry: parseFloat of its price string. -/
def entryKey (e : OrderBookEntry) : JSNum := parseFloat e.price

/-- Strict "a sorts before b" for the comparator of sortOrderBookEntries:
the source comparator returns `priceB - priceA` for bids and
`priceA - priceB` for offers, so `a` strictly precedes `b` when the
comparator value is negative; comparisons involving NaN are never
negative, hence ties. -/
def ltEntry (side : Side) (a b : OrderBookEntry) : Bool :=
  match entryKey a, entryKey b with
  | some x, some y =>
      match side with
      | Side.bid => decide (y < x)
      | Side.offer => decide (x < y)
  | _, _ => false

/-- Insert `x` before the first element it strictly precedes: the later
element goes after existing ties, which is what a stable sort does. -/
def insertSorted {α : Type} (lt : α → α → Bool) (x : α) : List α → List α
  | [] => [x]
  | y :: ys => if lt x y then x :: y :: ys else y :: insertSorted lt x ys

/-- Left-to-right stable insertion of `l` into the accumulator `acc`. -/
def stableSortAux {α : Type} (lt : α → α → Bool) : List α → List α → List α
  | acc, [] => acc
  | acc, x :: xs => stableSortAux lt (insertSorted lt x acc) xs

/-- Model of Array.prototype.sort with a consistent comparator: stable
(mandated since ES2019), elements taken left to right and each placed
after all earlier elements it does not strictly precede. -/
def stableSort {α : Type} (lt : α → α → Bool) (l : List α) : List α :=
  stableSortAux lt [] l

/-- sortOrderBookEntries of src/lib/websocket's order-book utils: sorts by
numeric price, descending for bids and ascending for offers.  (The JS
function sorts its argument array in place and returns it; the in-place
aspect is modelled separately by sortOrderBookEntriesST.) -/
def sortOrderBookEntries (entries : List OrderBookEntry) (side : Side) : List OrderBookEntry :=
  stableSort (ltEntry side) entries

/-- The entry built from an update inside processOrderBookUpdates and
createOrderBookSnapshot; `update.exchange || 'Coinbase'` falls back to
Coinbase when the field is absent or the empty string (both falsy). -/
def mkEntry (u : CoinbaseOrderBookUpdate) : OrderBookEntry :=
  { price := u.price_level
    size := u.new_quantity
    exchange :=
      match u.exchange with
      | none => "Coinbase"
      | some s => if s = "" then "Coinbase" else s }

/-- The test `parseFloat(entry.size) === 0` of processOrderBookUpdates;
NaN is not equal to 0. -/
def sizeIsZero (u : CoinbaseOrderBookUpdate) : Bool :=
  decide (parseFloat u.new_quantity = some 0)

/-- Remove the entry at the first index whose price string equals `p`,
as `findIndex` followed by `splice(index, 1)` does; a no-op when no
entry matches. -/
def removeFirstByPrice (p : String) : List OrderBookEntry → List OrderBookEntry
  | [] => []
  | e :: es => if e.price = p then es else e :: removeFirstByPrice p es

/-- Overwrite the entry at the first index whose price string equals
`x.price`, as `findIndex` followed by index assignment does, or push `x`
at the end when no entry matches. -/
def replaceFirstOrAppend (x : OrderBookEntry) : List OrderBookEntry → List OrderBookEntry
  | [] => [x]
  | e :: es => if e.price = x.price then x :: es else e :: replaceFirstOrAppend x es

/-- Body of the forEach of processOrderBookUpdates: size zero removes the
price level (no-op if absent), otherwise the level is replaced in place
or appended. -/
def applyUpdate (l : List OrderBookEntry) (u : CoinbaseOrderBookUpdate) : List OrderBookEntry :=
  if sizeIsZero u then removeFirstByPrice (mkEntry u).price l
  else replaceFirstOrAppend (mkEntry u) l

/-- The `updates.filter((update) => update.side === side)` step. -/
def sideFilter (updates : List CoinbaseOrderBookUpdate) (side : Side) :
    List CoinbaseOrderBookUpdate :=
  updates.filter (fun u => decide (u.side = side))

/-- processOrderBookUpdates: copy the current entries, apply the
side-matching updates in order, then re-sort and truncate to the depth
bound (`slice(0, ORDER_BOOK_DEPTH)`). -/
def processOrderBookUpdates (currentEntries : List OrderBookEntry)
    (updates : List CoinbaseOrderBookUpdate) (side : Side) : List OrderBookEntry :=
  (sortOrderBookEntries ((sideFilter updates side).foldl applyUpdate currentEntries) side).take
    ORDER_BOOK_DEPTH

/-- The `Pick<OrderBookData, 'bids' | 'asks'>` returned by
createOrderBookSnapshot. -/
structure OrderBookSides where
  bids : List OrderBookEntry
  asks : List OrderBookEntry
deriving DecidableEq, Repr

/-- createOrderBookSnapshot: partition the snapshot updates by side, map
them to entries, sort each side and truncate to the depth bound. -/
def createOrderBookSnapshot (updates : List CoinbaseOrderBookUpdate) : OrderBookSides :=
  { bids := (sortOrderBookEntries ((sideFilter updates Side.bid).map mkEntry) Side.bid).take
      ORDER_BOOK_DEPTH
    asks := (sortOrderBookEntries ((sideFilter updates Side.offer).map mkEntry) Side.offer).take
      ORDER_BOOK_DEPTH }

/-- calculateMidPrice: null (`none`) when either side is empty, else the
average of the parsed best bid and best ask (a JSNum, since the parses
may be NaN). -/
def calculateMidPrice (orderBook : OrderBookData) : Option JSNum :=
  match orderBook.bids, orderBook.asks with
  | [], _ => none
  | _, [] => none
  | b :: _, a :: _ => some (jsDivN (jsAdd (parseFloat b.price) (parseFloat a.price)) (some 2))

/-- State-passing view of sortOrderBookEntries, returning (return value,
argument array after the call): `Array.prototype.sort` reorders the
receiver in place and returns it, so both components are the sorted
list. -/
def sortOrderBookEntriesST (entries : List OrderBookEntry) (side : Side) :
    List OrderBookEntry × List OrderBookEntry :=
  (sortOrderBookEntries entries side, sortOrderBookEntries entries side)

/-- State-passing view of processOrderBookUpdates: the function first
copies its argument (`[...currentEntries]`); splice, index assignment
and the in-place sort hit the copy only, and `slice` returns a fresh
array, so the argument array still holds its original contents. -/
def processOrderBookUpdatesST (currentEntries : List OrderBookEntry)
    (updates : List CoinbaseOrderBookUpdate) (side : Side) :
    List OrderBookEntry × List OrderBookEntry :=
  (processOrderBookUpdates currentEntries updates side, currentEntries)

/-- State-passing view of createOrderBookSnapshot: `filter` and `map`
allocate fresh arrays and the in-place sorts hit those, so the argument
updates array is unchanged. -/
def createOrderBookSnapshotST (updates : List CoinbaseOrderBookUpdate) :
    OrderBookSides × List CoinbaseOrderBookUpdate :=
  (createOrderBookSnapshot updates, updates)

/-- State-passing view of calculateMidPrice, which only reads its
argument. -/
def calculateMidPriceST (orderBook : OrderBookData) : Option JSNum × OrderBookData :=
  (calculateMidPrice orderBook, orderBook)

/-- Output entry of the aggregation transform, observed numerically: the
JS function stringifies the bucket price and total size
(`aggregatedPrice.toString()`), which is a bijective rendering of the
number, so sums and comparisons are stated on the numeric values. -/
structure AggEntry where
  price : JSNum
  size : JSNum
  exchange : String
deriving DecidableEq, Repr

/-- Numeric view of an input entry, used for the identity branches of
the aggregation transform (which return the input unchanged). -/
def entryToAgg (e : OrderBookEntry) : AggEntry :=
  { price := parseFloat e.price, size := parseFloat e.size, exchange := e.exchange }

/-- The bucket price of one order: floor (bids) or ceil (asks) of
price/actualIncrement, scaled back, then snapped by rounding to cancel
drift. -/
def bucketPrice (isBid : Bool) (actualIncrement : JSNum) (e : OrderBookEntry) : JSNum :=
  let p := parseFloat e.price
  let raw :=
    if isBid then jsMul (jsFloor (jsDivN p actualIncrement)) actualIncrement
    else jsMul (jsCeil (jsDivN p actualIncrement)) actualIncrement
  jsMul (jsRound (jsDivN raw actualIncrement)) actualIncrement

/-- One step of the aggregation Map: keys follow JS Map SameValueZero
equality on numbers (NaN is a single key), insertion order is kept, an
existing bucket accumulates `totalSize += size` and collects the truthy
exchange names (a JS Set, insertion-ordered, no duplicates). -/
def insertAgg (k : JSNum) (sz : JSNum) (ex : String) :
    List (JSNum × JSNum × List String) → List (JSNum × JSNum × List String)
  | [] => [(k, sz, if ex = "" then [] else [ex])]
  | (k', t, s) :: rest =>
      if k' = k then
        (k', jsAdd t sz, if ex = "" ∨ ex ∈ s then s else s ++ [ex]) :: rest
      else (k', t, s) :: insertAgg k sz ex rest

/-- Rendering of a bucket as an entry: the sole contributing exchange
name, or a count. -/
def aggMapEntry (b : JSNum × JSNum × List String) : AggEntry :=
  { price := b.1
    size := b.2.1
    exchange :=
      if b.2.2.length = 1 then b.2.2.headI else toString b.2.2.length ++ " exchanges" }

/-- Comparator of the final sort of the aggregation transform (bids
descending, asks ascending), on the numeric bucket prices. -/
def ltAgg (isBid : Bool) (a b : AggEntry) : Bool :=
  match a.price, b.price with
  | some x, some y => if isBid then decide (y < x) else decide (x < y)
  | _, _ => false

/-- aggregateOrderBookData of the aggregation context: identity when the
increment is not positive, the input is empty, or the reference price
(the first entry's, `orders[0]?.price || '0'`) is not greater than zero
(a NaN reference price passes this guard, as `NaN <= 0` is false);
otherwise buckets the entries by `priceIncrement * referencePrice`,
merges sizes and exchange sets per bucket, re-sorts and keeps the top
10 buckets. -/
def aggregateOrderBookData (priceIncrement : ℚ) (orders : List OrderBookEntry)
    (isBid : Bool) : List AggEntry :=
  if priceIncrement ≤ 0 ∨ orders.length = 0 then orders.map entryToAgg
  else
    let refStr := match orders with
      | [] => "0"
      | o :: _ => if o.price = "" then "0" else o.price
    let referencePrice := parseFloat refStr
    if jsLeZero referencePrice then orders.map entryToAgg
    else
      let actualIncrement := jsMul (some priceIncrement) referencePrice
      let m := orders.foldl
        (fun acc o => insertAgg (bucketPrice isBid actualIncrement o) (parseFloat o.size)
          o.exchange acc) []
      (stableSort (ltAgg isBid) (m.map aggMapEntry)).take 10

/-- Sum of the numeric sizes of the input entries of the aggregation
transform. -/
def sumSizesIn (orders : List OrderBookEntry) : JSNum :=
  (orders.map (fun o => parseFloat o.size)).foldr jsAdd (some 0)

/-- Sum of the numeric sizes of the output entries of the aggregation
transform. -/
def sumSizesOut (aggs : List AggEntry) : JSNum :=
  (aggs.map AggEntry.size).foldr jsAdd (some 0)

/-- The action handleClose takes after a closure: schedule a reconnect
in `min(base * 2 ^ attempts, maxDelay)` ms when the closure is abnormal
and the retry budget remains, report MAX_RECONNECT_ATTEMPTS when the
budget is exhausted, otherwise nothing. -/
inductive CloseAction
  | schedule (delay : Nat)
  | reportMaxAttempts
  | noAction
deriving DecidableEq, Repr

/-- The branch structure of handleClose combined with the delay
computation of scheduleReconnection. -/
def handleCloseStep (code : Nat) (reconnectAttempts : Nat) : CloseAction :=
  if code ≠ NORMAL_CLOSURE_CODE ∧ reconnectAttempts < MAX_RECONNECT_ATTEMPTS then
    CloseAction.schedule
      (min (RECONNECT_BASE_DELAY * 2 ^ reconnectAttempts) MAX_RECONNECT_DELAY)
  else if MAX_RECONNECT_ATTEMPTS ≤ reconnectAttempts then CloseAction.reportMaxAttempts
  else CloseAction.noAction

/-- Trace of `k` consecutive abnormal closures (code 1006) starting from
a freshly opened connection (handleOpen has reset reconnectAttempts to
0): each scheduled reconnect timer fires before the next closure,
incrementing the attempt counter.  Returns the final counter and the
close actions in order. -/
def simulateAbnormalCloses : Nat → Nat × List CloseAction
  | 0 => (0, [])
  | k + 1 =>
      let r := simulateAbnormalCloses k
      let act := handleCloseStep 1006 r.1
      (match act with
        | CloseAction.schedule _ => r.1 + 1
        | _ => r.1, r.2 ++ [act])

/-- The `'subscribe' | 'unsubscribe'` union of SubscriptionMessage. -/
inductive SubType
  | subscribe
  | unsubscribe
deriving DecidableEq, Repr

/-- SubscriptionMessage of src/types/websocket.ts. -/
structure SubscriptionMessage where
  type : SubType
  product_ids : List String
  channel : String
deriving DecidableEq, Repr

/-- The `'snapshot' | 'update'` union of CoinbaseWebSocketEvent. -/
inductive EventType
  | snapshot
  | update
deriving DecidableEq, Repr

/-- CoinbaseWebSocketEvent of src/types/websocket.ts. -/
structure CoinbaseWebSocketEvent where
  product_id : String
  type : EventType
  updates : List CoinbaseOrderBookUpdate
deriving DecidableEq, Repr

/-- Lookup in a JS Map modelled as an insertion-ordered association
list with unique keys. -/
def mapGet {β : Type} (m : List (String × β)) (k : String) : Option β :=
  (m.find? (fun q => decide (q.1 = k))).map (fun q => q.2)

/-- `Map.set`: overwrite the entry holding the key, or append a new
one. -/
def mapSet {β : Type} (m : List (String × β)) (k : String) (v : β) : List (String × β) :=
  match m with
  | [] => [(k, v)]
  | (k', v') :: rest => if k' = k then (k, v) :: rest else (k', v') :: mapSet rest k v

/-- `Map.delete`: drop the entry holding the key (keys are unique in a
JS Map, so dropping every match is the same thing). -/
def mapDelete {β : Type} (m : List (String × β)) (k : String) : List (String × β) :=
  m.filter (fun q => !decide (q.1 = k))

/-- `Set.add` on an insertion-ordered string set. -/
def setAdd (s : List String) (k : String) : List String :=
  if k ∈ s then s else s ++ [k]

/-- `Set.delete` on an insertion-ordered string set (elements are
unique, so dropping every match is the same thing). -/
def setRemove (s : List String) (k : String) : List String :=
  s.filter (fun x => !decide (x = k))

/-- The WebSocketClient state the subscription and message handlers
touch: the connection flag stands for `ws?.readyState === OPEN`, and
`sent` records the subscription messages written to the socket. -/
structure ClientModel where
  wsOpen : Bool
  subscribedProducts : List String
  subscriptionCounts : List (String × Nat)
  orderBooks : List (String × OrderBookData)
  sent : List SubscriptionMessage
deriving DecidableEq, Repr

/-- A fresh WebSocketClient (constructor state) with the given
connection flag. -/
def initialClient (wsOpen : Bool) : ClientModel :=
  { wsOpen := wsOpen
    subscribedProducts := []
    subscriptionCounts := []
    orderBooks := []
    sent := [] }

/-- sendSubscriptionMessage: a no-op warning when the socket is not
open, otherwise the message is written out on channel 'level2'. -/
def sendSubscriptionMessage (st : ClientModel) (ty : SubType) (productIds : List String) :
    ClientModel :=
  if st.wsOpen then
    { st with sent := st.sent ++ [{ type := ty, product_ids := productIds, channel := "level2" }] }
  else st

/-- initializeOrderBook: store an empty book for the product. -/
def emptyOrderBook : OrderBookData :=
  { bids := [], asks := [], lastUpdated := none }

/-- subscribeToProduct: bump the reference count; a first subscriber
(count 0) also registers the product, initializes its order book and
sends the subscribe message. -/
def subscribeToProduct (st : ClientModel) (productId : String) : ClientModel :=
  let currentCount := (mapGet st.subscriptionCounts productId).getD 0
  let st1 := { st with
    subscriptionCounts := mapSet st.subscriptionCounts productId (currentCount + 1) }
  if currentCount = 0 then
    let st2 := { st1 with subscribedProducts := setAdd st1.subscribedProducts productId }
    let st3 := { st2 with orderBooks := mapSet st2.orderBooks productId emptyOrderBook }
    sendSubscriptionMessage st3 SubType.subscribe [productId]
  else st1

/-- unsubscribeFromProduct: a warning no-op when the product holds no
active subscription; otherwise the count is decremented, and on reaching
0 the product, its order book and its count entry are discarded and the
unsubscribe message is sent. -/
def unsubscribeFromProduct (st : ClientModel) (productId : String) : ClientModel :=
  let currentCount := (mapGet st.subscriptionCounts productId).getD 0
  if currentCount = 0 then st
  else
    let newCount := currentCount - 1
    let st1 := { st with
      subscriptionCounts := mapSet st.subscriptionCounts productId newCount }
    if newCount = 0 then
      let st2 := { st1 with
        subscribedProducts := setRemove st1.subscribedProducts productId
        orderBooks := mapDelete st1.orderBooks productId
        subscriptionCounts := mapDelete st1.subscriptionCounts productId }
      sendSubscriptionMessage st2 SubType.unsubscribe [productId]
    else st1

/-- handleOrderBookSnapshot: replace the product's book wholesale with
the built snapshot (the wall-clock lastUpdated stamp is abstracted to
0). -/
def handleOrderBookSnapshot (st : ClientModel) (productId : String)
    (updates : List CoinbaseOrderBookUpdate) : ClientModel :=
  let snapshot := createOrderBookSnapshot updates
  let newBook : OrderBookData :=
    { bids := snapshot.bids, asks := snapshot.asks, lastUpdated := some 0 }
  { st with orderBooks := mapSet st.orderBooks productId newBook }

/-- handleOrderBookUpdate: a warning no-op for a product with no stored
book, otherwise both sides are merged through processOrderBookUpdates. -/
def handleOrderBookUpdate (st : ClientModel) (productId : String)
    (updates : List CoinbaseOrderBookUpdate) : ClientModel :=
  match mapGet st.orderBooks productId with
  | none => st
  | some currentOrderBook =>
      let newBook : OrderBookData :=
        { bids := processOrderBookUpdates currentOrderBook.bids updates Side.bid
          asks := processOrderBookUpdates currentOrderBook.asks updates Side.offer
          lastUpdated := some 0 }
      { st with orderBooks := mapSet st.orderBooks productId newBook }

/-- One iteration of processOrderBookEvents: events with a falsy product
id (the empty string) or for a product with no registered subscriber are
dropped. -/
def processOrderBookEvent (st : ClientModel) (e : CoinbaseWebSocketEvent) : ClientModel :=
  if e.product_id = "" ∨ e.product_id ∉ st.subscribedProducts then st
  else
    match e.type with
    | EventType.snapshot => handleOrderBookSnapshot st e.product_id e.updates
    | EventType.update => handleOrderBookUpdate st e.product_id e.updates

/-- processOrderBookEvents iterates the contained events in order. -/
def processOrderBookEvents (st : ClientModel) (events : List CoinbaseWebSocketEvent) :
    ClientModel :=
  events.foldl processOrderBookEvent st

/-- An externally issued operation on the client: a subscribe call, an
unsubscribe call, or a processed order-book feed message. -/
inductive ClientOp
  | sub (productId : String)
  | unsub (productId : String)
  | feed (events : List CoinbaseWebSocketEvent)

/-- Run one operation. -/
def applyClientOp (st : ClientModel) : ClientOp → ClientModel
  | ClientOp.sub p => subscribeToProduct st p
  | ClientOp.unsub p => unsubscribeFromProduct st p
  | ClientOp.feed es => processOrderBookEvents st es

/-- Run a sequence of operations left to right. -/
def runClientOps (st : ClientModel) (ops : List ClientOp) : ClientModel :=
  ops.foldl applyClientOp st

/-- The registry-consistency invariant of the client: the key set of the
order-book map, the subscribed-product set and the key set of the
count map coincide, and every stored count is at least 1. -/
def RegistryConsistent (st : ClientModel) : Prop :=
  ∀ p : String,
    ((mapGet st.subscriptionCounts p).isSome ↔ p ∈ st.subscribedProducts) ∧
    ((mapGet st.orderBooks p).isSome ↔ p ∈ st.subscribedProducts) ∧
    (∀ n : Nat, mapGet st.subscriptionCounts p = some n → 1 ≤ n)

/-- The WebSocketError codes of src/types/websocket.ts. -/
inductive WebSocketErrorCode
  | CONNECTION_FAILED
  | PARSING_ERROR
  | MAX_RECONNECT_ATTEMPTS
  | SUBSCRIPTION_ERROR
deriving DecidableEq, Repr

/-- The observable connection state of the client. -/
structure WebSocketClientState where
  isConnected : Bool
  isConnecting : Bool
  error : Option WebSocketErrorCode
deriving DecidableEq, Repr

/-- A registered price-update callback, abstracted to an identifier and
its behaviour on this invocation (whether it throws). -/
structure PriceCallback where
  id : Nat
  throws : Bool
deriving DecidableEq, Repr

/-- The `priceUpdateCallbacks.forEach((callback) => callback(productId,
midPrice))` loop of notifyPriceUpdate: the call is not wrapped in any
try/catch, so a throwing callback aborts the iteration and the exception
escapes notifyPriceUpdate.  Returns the identifiers of the callbacks
that were invoked and whether an exception escaped. -/
def runPriceCallbacks : List PriceCallback → List Nat × Bool
  | [] => ([], false)
  | c :: cs =>
      if c.throws then ([c.id], true)
      else
        let r := runPriceCallbacks cs
        (c.id :: r.1, r.2)

/-- The catch of handleMessage around processOrderBookEvents (which the
escaped exception reaches, notifyPriceUpdate being called inside it):
handleError records a PARSING_ERROR on the connection state and clears
isConnecting. -/
def handleMessageCatch (st : WebSocketClientState) (exceptionEscaped : Bool) :
    WebSocketClientState :=
  if exceptionEscaped then
    { st with error := some WebSocketErrorCode.PARSING_ERROR, isConnecting := false }
  else st

/-- Dispatch of one available mid-price to the registered callbacks as
handleMessage performs it: run the callbacks, and let any escaped
exception hit handleMessage's catch. -/
def dispatchPriceUpdate (st : WebSocketClientState) (cbs : List PriceCallback) :
    List Nat × WebSocketClientState :=
  let r := runPriceCallbacks cbs
  (r.1, handleMessageCatch st r.2)

/-- Pairwise-distinct price strings within one side of a book. -/
def pricesNodup (l : List OrderBookEntry) : Prop :=
  l.Pairwise (fun a b => a.price ≠ b.price)

/-- Pairwise-distinct price levels within an update batch. -/
def updatesPricesNodup (us : List CoinbaseOrderBookUpdate) : Prop :=
  us.Pairwise (fun u v => u.price_level ≠ v.price_level)

/-- The required numeric order of a side, read off two entries: for bids
the later entry's parsed price is at most the earlier one's (descending),
for offers at least (ascending); entries whose price does not parse
impose nothing. -/
def numOrdered (side : Side) (a b : OrderBookEntry) : Prop :=
  ∀ qa qb : ℚ, parseFloat a.price = some qa → parseFloat b.price = some qb →
    match side with
    | Side.bid => qb ≤ qa
    | Side.offer => qa ≤ qb

/-- Whether some entry of `t` holds the update's price level. -/
def touchesPrice (t : List OrderBookEntry) (u : CoinbaseOrderBookUpdate) : Bool :=
  t.any (fun e => decide (e.price = u.price_level))

/-- The entries a replay of the batch appends to a truncated side: the
non-deletion updates whose price level the side no longer holds. -/
def appendedEntries (t : List OrderBookEntry) (V : List CoinbaseOrderBookUpdate) :
    List OrderBookEntry :=
  (V.filter (fun u => !sizeIsZero u && !touchesPrice t u)).map mkEntry

theorem qAdd_eq (a b : ℚ) : qAdd a b = a + b := (Rat.add_def' a b).symm

theorem qMul_eq (a b : ℚ) : qMul a b = a * b := (Rat.mul_eq_mkRat a b).symm

theorem mkRat_eq_div' (n : Int) (d : Nat) : mkRat n d = (n : ℚ) / (d : ℚ) := by
  rw [Rat.mkRat_eq_divInt, Rat.divInt_eq_div]
  norm_num

theorem qInv_eq (b : ℚ) : qInv b = b⁻¹ := by
  unfold qInv
  rcases lt_trichotomy b.num 0 with hneg | hzero | hpos
  · rw [if_neg (by omega)]
    rw [mkRat_eq_div', Rat.inv_def', Rat.divInt_eq_div]
    rw [Int.cast_natAbs]
    rw [abs_of_neg (by exact_mod_cast hneg)]
    push_cast
    rw [div_neg, neg_div, neg_neg]
  · rw [if_pos (by omega)]
    have hb : b = 0 := by
      have := Rat.num_eq_zero.mp hzero
      exact this
    subst hb
    simp
  · rw [if_pos (by omega)]
    rw [mkRat_eq_div', Rat.inv_def', Rat.divInt_eq_div]
    rw [Int.cast_natAbs]
    rw [abs_of_pos (by exact_mod_cast hpos)]

theorem qDiv_eq (a b : ℚ) : qDiv a b = a / b := by
  rw [qDiv, qMul_eq, qInv_eq, div_eq_mul_inv]

theorem insertSorted_perm {α : Type} (lt : α → α → Bool) (x : α) (l : List α) :
    List.Perm (insertSorted lt x l) (x :: l) := by
  induction l with
  | nil => simp [insertSorted]
  | cons y ys ih =>
      by_cases h : lt x y
      · simp [insertSorted, h]
      · simp only [insertSorted, h, Bool.false_eq_true, if_false]
        exact (ih.cons y).trans (List.Perm.swap x y ys)

theorem mem_insertSorted {α : Type} (lt : α → α → Bool) (x a : α) (l : List α) :
    a ∈ insertSorted lt x l ↔ a = x ∨ a ∈ l := by
  rw [(insertSorted_perm lt x l).mem_iff, List.mem_cons]

theorem stableSortAux_perm {α : Type} (lt : α → α → Bool) (l acc : List α) :
    List.Perm (stableSortAux lt acc l) (acc ++ l) := by
  induction l generalizing acc with
  | nil => simp [stableSortAux]
  | cons x xs ih =>
      have h1 := ih (insertSorted lt x acc)
      have h2 : List.Perm (insertSorted lt x acc ++ xs) ((x :: acc) ++ xs) :=
        (insertSorted_perm lt x acc).append_right xs
      exact (h1.trans h2).trans List.perm_middle.symm

theorem stableSort_perm {α : Type} (lt : α → α → Bool) (l : List α) :
    List.Perm (stableSort lt l) l := stableSortAux_perm lt l []

theorem pairwise_insertSorted {α : Type} {lt : α → α → Bool}
    (htrans : ∀ a b c, lt a b = true → lt b c = true → lt a c = true)
    (hasymm : ∀ a b, lt a b = true → lt b a = false)
    (x : α) {l : List α} (hl : l.Pairwise (fun a b => lt b a = false)) :
    (insertSorted lt x l).Pairwise (fun a b => lt b a = false) := by
  induction l with
  | nil => simp [insertSorted]
  | cons y ys ih =>
      by_cases hxy : lt x y
      · simp only [insertSorted, hxy, if_true]
        refine List.Pairwise.cons ?_ hl
        intro z hz
        rcases List.mem_cons.mp hz with rfl | hz'
        · exact hasymm x z hxy
        · by_contra hc
          have hzx : lt z x = true := by
            cases h : lt z x
            · exact absurd h hc
            · rfl
          have : lt z y = true := htrans z x y hzx hxy
          have hyz : lt z y = false :=
            (List.rel_of_pairwise_cons hl hz')
          rw [this] at hyz
          exact Bool.true_eq_false.mp hyz
      · simp only [insertSorted, hxy, Bool.false_eq_true, if_false]
        refine List.Pairwise.cons ?_ (ih (List.Pairwise.of_cons hl))
        intro z hz
        rcases (mem_insertSorted lt x z ys).mp hz with rfl | hz'
        · cases h : lt z y
          · rfl
          · exact absurd h hxy
        · exact List.rel_of_pairwise_cons hl hz'

theorem pairwise_stableSortAux {α : Type} {lt : α → α → Bool}
    (htrans : ∀ a b c, lt a b = true → lt b c = true → lt a c = true)
    (hasymm : ∀ a b, lt a b = true → lt b a = false)
    (l : List α) {acc : List α} (hacc : acc.Pairwise (fun a b => lt b a = false)) :
    (stableSortAux lt acc l).Pairwise (fun a b => lt b a = false) := by
  induction l generalizing acc with
  | nil => exact hacc
  | cons x xs ih => exact ih (pairwise_insertSorted htrans hasymm x hacc)

theorem pairwise_stableSort {α : Type} {lt : α → α → Bool}
    (htrans : ∀ a b c, lt a b = true → lt b c = true → lt a c = true)
    (hasymm : ∀ a b, lt a b = true → lt b a = false)
    (l : List α) :
    (stableSort lt l).Pairwise (fun a b => lt b a = false) :=
  pairwise_stableSortAux htrans hasymm l List.Pairwise.nil

theorem insertSorted_append_front {α : Type} (lt : α → α → Bool) (x : α)
    {t : List α} (X : List α) (h : ∀ e ∈ t, lt x e = false) :
    insertSorted lt x (t ++ X) = t ++ insertSorted lt x X := by
  induction t with
  | nil => rfl
  | cons e t' ih =>
      have he : lt x e = false := h e (List.mem_cons_self e t')
      simp only [List.cons_append, insertSorted, he, Bool.false_eq_true, if_false,
        List.append_eq]
      rw [ih (fun e' he' => h e' (List.mem_cons_of_mem e he'))]

theorem stableSortAux_of_pairwise {α : Type} (lt : α → α → Bool)
    (l : List α) {acc : List α}
    (h : (acc ++ l).Pairwise (fun a b => lt b a = false)) :
    stableSortAux lt acc l = acc ++ l := by
  induction l generalizing acc with
  | nil => simp [stableSortAux]
  | cons x xs ih =>
      have hins : insertSorted lt x acc = acc ++ [x] := by
        have hall : ∀ e ∈ acc, lt x e = false := by
          intro e he
          exact (List.pairwise_append.mp h).2.2 e he x (List.mem_cons_self x xs)
        have := insertSorted_append_front lt x ([] : List α) hall
        simpa [insertSorted] using this
      rw [stableSortAux, hins]
      have h' : ((acc ++ [x]) ++ xs).Pairwise (fun a b => lt b a = false) := by
        rw [List.append_assoc, List.singleton_append]
        exact h
      rw [ih h', List.append_assoc, List.singleton_append]

theorem stableSort_of_pairwise {α : Type} (lt : α → α → Bool)
    (l : List α) (h : l.Pairwise (fun a b => lt b a = false)) :
    stableSort lt l = l :=
  stableSortAux_of_pairwise lt l (by simpa using h)

theorem stableSortAux_append {α : Type} (lt : α → α → Bool)
    (l₁ l₂ acc : List α) :
    stableSortAux lt acc (l₁ ++ l₂) = stableSortAux lt (stableSortAux lt acc l₁) l₂ := by
  induction l₁ generalizing acc with
  | nil => rfl
  | cons x xs ih => simpa [stableSortAux] using ih (insertSorted lt x acc)

theorem stableSortAux_front {α : Type} (lt : α → α → Bool)
    {t : List α} (D : List α)
    (h : ∀ d ∈ D, ∀ e ∈ t, lt d e = false) :
    ∀ X : List α, ∃ Y : List α, stableSortAux lt (t ++ X) D = t ++ Y := by
  induction D with
  | nil => exact fun X => ⟨X, rfl⟩
  | cons d D' ih =>
      intro X
      have hd : ∀ e ∈ t, lt d e = false := h d (List.mem_cons_self d D')
      have step : insertSorted lt d (t ++ X) = t ++ insertSorted lt d X :=
        insertSorted_append_front lt d X hd
      have ih' := ih (fun d' hd' => h d' (List.mem_cons_of_mem d hd')) (insertSorted lt d X)
      rcases ih' with ⟨Y, hY⟩
      exact ⟨Y, by rw [stableSortAux, step, hY]⟩

theorem ltEntry_trans (side : Side) (a b c : OrderBookEntry) :
    ltEntry side a b = true → ltEntry side b c = true → ltEntry side a c = true := by
  unfold ltEntry
  cases hka : entryKey a <;> cases hkb : entryKey b <;> cases hkc : entryKey c <;>
    cases side <;> simp [decide_eq_true_eq]
  · intro h1 h2
    exact lt_trans h2 h1
  · intro h1 h2
    exact lt_trans h1 h2

theorem ltEntry_asymm (side : Side) (a b : OrderBookEntry) :
    ltEntry side a b = true → ltEntry side b a = false := by
  unfold ltEntry
  cases hka : entryKey a <;> cases hkb : entryKey b <;>
    cases side <;> simp [decide_eq_true_eq]
  · intro h
    exact le_of_lt h
  · intro h
    exact le_of_lt h

theorem mkEntry_price (u : CoinbaseOrderBookUpdate) : (mkEntry u).price = u.price_level := rfl

theorem mem_replaceFirstOrAppend (x a : OrderBookEntry) (l : List OrderBookEntry)
    (h : a ∈ replaceFirstOrAppend x l) : a = x ∨ a ∈ l := by
  induction l with
  | nil => simpa [replaceFirstOrAppend] using h
  | cons e es ih =>
      by_cases he : e.price = x.price
      · simp only [replaceFirstOrAppend, he, if_true] at h
        rcases List.mem_cons.mp h with rfl | h'
        · exact Or.inl rfl
        · exact Or.inr (List.mem_cons_of_mem e h')
      · simp only [replaceFirstOrAppend, he, if_false] at h
        rcases List.mem_cons.mp h with rfl | h'
        · exact Or.inr (List.mem_cons_self a es)
        · rcases ih h' with h'' | h''
          · exact Or.inl h''
          · exact Or.inr (List.mem_cons_of_mem e h'')

theorem self_mem_replaceFirstOrAppend (x : OrderBookEntry) (l : List OrderBookEntry) :
    x ∈ replaceFirstOrAppend x l := by
  induction l with
  | nil => simp [replaceFirstOrAppend]
  | cons e es ih =>
      by_cases he : e.price = x.price
      · simp [replaceFirstOrAppend, he]
      · simp only [replaceFirstOrAppend, he, if_false]
        exact List.mem_cons_of_mem e ih

theorem mem_replaceFirstOrAppend_of_ne (x a : OrderBookEntry) (l : List OrderBookEntry)
    (ha : a ∈ l) (hne : a.price ≠ x.price) : a ∈ replaceFirstOrAppend x l := by
  induction l with
  | nil => cases ha
  | cons e es ih =>
      by_cases he : e.price = x.price
      · simp only [replaceFirstOrAppend, he, if_true]
        rcases List.mem_cons.mp ha with rfl | h'
        · exact absurd he hne
        · exact List.mem_cons_of_mem x h'
      · simp only [replaceFirstOrAppend, he, if_false]
        rcases List.mem_cons.mp ha with rfl | h'
        · exact List.mem_cons_self a (replaceFirstOrAppend x es)
        · exact List.mem_cons_of_mem e (ih h')

theorem replaceFirstOrAppend_of_absent (x : OrderBookEntry) (l : List OrderBookEntry)
    (h : ∀ e ∈ l, e.price ≠ x.price) : replaceFirstOrAppend x l = l ++ [x] := by
  induction l with
  | nil => rfl
  | cons e es ih =>
      have he : e.price ≠ x.price := h e (List.mem_cons_self e es)
      simp only [replaceFirstOrAppend, he, if_false, List.cons_append]
      rw [ih (fun e' he' => h e' (List.mem_cons_of_mem e he'))]

theorem replaceFirstOrAppend_self (x : OrderBookEntry) (l : List OrderBookEntry)
    (hx : x ∈ l) (huniq : ∀ e ∈ l, e.price = x.price → e = x) :
    replaceFirstOrAppend x l = l := by
  induction l with
  | nil => cases hx
  | cons e es ih =>
      by_cases he : e.price = x.price
      · have : e = x := huniq e (List.mem_cons_self e es) he
        simp [replaceFirstOrAppend, he, this]
      · simp only [replaceFirstOrAppend, he, if_false]
        have hx' : x ∈ es := by
          rcases List.mem_cons.mp hx with rfl | h'
          · exact absurd rfl he
          · exact h'
        rw [ih hx' (fun e' he' hp => huniq e' (List.mem_cons_of_mem e he') hp)]

theorem pricesNodup_replaceFirstOrAppend (x : OrderBookEntry) (l : List OrderBookEntry)
    (h : pricesNodup l) : pricesNodup (replaceFirstOrAppend x l) := by
  induction l with
  | nil => simp [replaceFirstOrAppend, pricesNodup]
  | cons e es ih =>
      by_cases he : e.price = x.price
      · simp only [replaceFirstOrAppend, he, if_true]
        refine List.Pairwise.cons ?_ (List.Pairwise.of_cons h)
        intro z hz
        rw [← he]
        exact List.rel_of_pairwise_cons h hz
      · simp only [replaceFirstOrAppend, he, if_false]
        refine List.Pairwise.cons ?_ (ih (List.Pairwise.of_cons h))
        intro z hz
        rcases mem_replaceFirstOrAppend x z es hz with rfl | hz'
        · exact he
        · exact List.rel_of_pairwise_cons h hz'

theorem removeFirstByPrice_sublist (p : String) (l : List OrderBookEntry) :
    List.Sublist (removeFirstByPrice p l) l := by
  induction l with
  | nil => simp [removeFirstByPrice]
  | cons e es ih =>
      by_cases he : e.price = p
      · simp only [removeFirstByPrice, he, if_true]
        exact List.sublist_cons_self e es
      · simp only [removeFirstByPrice, he, if_false]
        exact List.Sublist.cons₂ e ih

theorem mem_removeFirstByPrice_of_ne (p : String) (a : OrderBookEntry)
    (l : List OrderBookEntry) (ha : a ∈ l) (hne : a.price ≠ p) :
    a ∈ removeFirstByPrice p l := by
  induction l with
  | nil => cases ha
  | cons e es ih =>
      by_cases he : e.price = p
      · simp only [removeFirstByPrice, he, if_true]
        rcases List.mem_cons.mp ha with rfl | h'
        · exact absurd he hne
        · exact h'
      · simp only [removeFirstByPrice, he, if_false]
        rcases List.mem_cons.mp ha with rfl | h'
        · exact List.mem_cons_self a (removeFirstByPrice p es)
        · exact List.mem_cons_of_mem e (ih h')

theorem removeFirstByPrice_of_absent (p : String) (l : List OrderBookEntry)
    (h : ∀ e ∈ l, e.price ≠ p) : removeFirstByPrice p l = l := by
  induction l with
  | nil => rfl
  | cons e es ih =>
      have he : e.price ≠ p := h e (List.mem_cons_self e es)
      simp only [removeFirstByPrice, he, if_false]
      rw [ih (fun e' he' => h e' (List.mem_cons_of_mem e he'))]

theorem removeFirstByPrice_not_mem (p : String) (l : List OrderBookEntry)
    (h : pricesNodup l) : ∀ e ∈ removeFirstByPrice p l, e.price ≠ p := by
  induction l with
  | nil => intro e he; cases he
  | cons a as ih =>
      by_cases ha : a.price = p
      · simp only [removeFirstByPrice, ha, if_true]
        intro e he
        have h1 : a.price ≠ e.price := List.rel_of_pairwise_cons h he
        rw [ha] at h1
        exact fun hc => h1 hc.symm
      · simp only [removeFirstByPrice, ha, if_false]
        intro e he
        rcases List.mem_cons.mp he with rfl | he'
        · exact ha
        · exact ih (List.Pairwise.of_cons h) e he'

theorem pricesNodup_removeFirstByPrice (p : String) (l : List OrderBookEntry)
    (h : pricesNodup l) : pricesNodup (removeFirstByPrice p l) :=
  List.Pairwise.sublist (removeFirstByPrice_sublist p l) h

theorem applyUpdate_preserves_absent (l : List OrderBookEntry)
    (u : CoinbaseOrderBookUpdate) (p : String) (hup : u.price_level ≠ p)
    (h : ∀ e ∈ l, e.price ≠ p) : ∀ e ∈ applyUpdate l u, e.price ≠ p := by
  unfold applyUpdate
  by_cases hz : sizeIsZero u
  · simp only [hz, if_true]
    intro e he
    exact h e (List.Sublist.mem he (removeFirstByPrice_sublist (mkEntry u).price l))
  · simp only [hz, Bool.false_eq_true, if_false]
    intro e he
    rcases mem_replaceFirstOrAppend (mkEntry u) e l he with rfl | he'
    · rw [mkEntry_price]
      exact hup
    · exact h e he'

theorem applyUpdate_preserves_mem (l : List OrderBookEntry)
    (u : CoinbaseOrderBookUpdate) (x : OrderBookEntry) (hx : x ∈ l)
    (hne : x.price ≠ u.price_level) : x ∈ applyUpdate l u := by
  unfold applyUpdate
  by_cases hz : sizeIsZero u
  · simp only [hz, if_true]
    exact mem_removeFirstByPrice_of_ne (mkEntry u).price x l hx hne
  · simp only [hz, Bool.false_eq_true, if_false]
    exact mem_replaceFirstOrAppend_of_ne (mkEntry u) x l hx hne

theorem applyUpdate_zero_absent (l : List OrderBookEntry)
    (u : CoinbaseOrderBookUpdate) (hnd : pricesNodup l) (hz : sizeIsZero u = true) :
    ∀ e ∈ applyUpdate l u, e.price ≠ u.price_level := by
  unfold applyUpdate
  simp only [hz, if_true]
  intro e he
  exact removeFirstByPrice_not_mem (mkEntry u).price l hnd e he

theorem applyUpdate_set_mem (l : List OrderBookEntry)
    (u : CoinbaseOrderBookUpdate) (hz : sizeIsZero u = false) :
    mkEntry u ∈ applyUpdate l u := by
  unfold applyUpdate
  simp only [hz, Bool.false_eq_true, if_false]
  exact self_mem_replaceFirstOrAppend (mkEntry u) l

theorem pricesNodup_applyUpdate (l : List OrderBookEntry)
    (u : CoinbaseOrderBookUpdate) (h : pricesNodup l) : pricesNodup (applyUpdate l u) := by
  unfold applyUpdate
  by_cases hz : sizeIsZero u
  · simp only [hz, if_true]
    exact pricesNodup_removeFirstByPrice (mkEntry u).price l h
  · simp only [hz, Bool.false_eq_true, if_false]
    exact pricesNodup_replaceFirstOrAppend (mkEntry u) l h

theorem foldl_applyUpdate_preserves_absent (V : List CoinbaseOrderBookUpdate)
    (l : List OrderBookEntry) (p : String)
    (hV : ∀ w ∈ V, w.price_level ≠ p) (h : ∀ e ∈ l, e.price ≠ p) :
    ∀ e ∈ V.foldl applyUpdate l, e.price ≠ p := by
  induction V generalizing l with
  | nil => exact h
  | cons v V' ih =>
      exact ih (applyUpdate l v)
        (fun w hw => hV w (List.mem_cons_of_mem v hw))
        (applyUpdate_preserves_absent l v p (hV v (List.mem_cons_self v V')) h)

theorem foldl_applyUpdate_preserves_mem (V : List CoinbaseOrderBookUpdate)
    (l : List OrderBookEntry) (x : OrderBookEntry)
    (hV : ∀ w ∈ V, w.price_level ≠ x.price) (hx : x ∈ l) :
    x ∈ V.foldl applyUpdate l := by
  induction V generalizing l with
  | nil => exact hx
  | cons v V' ih =>
      refine ih (applyUpdate l v) (fun w hw => hV w (List.mem_cons_of_mem v hw)) ?_
      exact applyUpdate_preserves_mem l v x hx
        (fun hc => hV v (List.mem_cons_self v V') hc.symm)

theorem pricesNodup_foldl_applyUpdate (V : List CoinbaseOrderBookUpdate)
    (l : List OrderBookEntry) (h : pricesNodup l) :
    pricesNodup (V.foldl applyUpdate l) := by
  induction V generalizing l with
  | nil => exact h
  | cons v V' ih => exact ih (applyUpdate l v) (pricesNodup_applyUpdate l v h)

theorem foldl_applyUpdate_final_zero (V : List CoinbaseOrderBookUpdate)
    (l : List OrderBookEntry) (u : CoinbaseOrderBookUpdate)
    (hnd : pricesNodup l) (hV : updatesPricesNodup V) (hu : u ∈ V)
    (hz : sizeIsZero u = true) :
    ∀ e ∈ V.foldl applyUpdate l, e.price ≠ u.price_level := by
  induction V generalizing l with
  | nil => cases hu
  | cons v V' ih =>
      rcases List.mem_cons.mp hu with rfl | hu'
      · exact foldl_applyUpdate_preserves_absent V' (applyUpdate l u) u.price_level
          (fun w hw => (List.rel_of_pairwise_cons hV hw).symm)
          (applyUpdate_zero_absent l u hnd hz)
      · exact ih (applyUpdate l v) (pricesNodup_applyUpdate l v hnd)
          (List.Pairwise.of_cons hV) hu'

theorem foldl_applyUpdate_final_set (V : List CoinbaseOrderBookUpdate)
    (l : List OrderBookEntry) (u : CoinbaseOrderBookUpdate)
    (hV : updatesPricesNodup V) (hu : u ∈ V) (hz : sizeIsZero u = false) :
    mkEntry u ∈ V.foldl applyUpdate l := by
  induction V generalizing l with
  | nil => cases hu
  | cons v V' ih =>
      rcases List.mem_cons.mp hu with rfl | hu'
      · refine foldl_applyUpdate_preserves_mem V' (applyUpdate l u) (mkEntry u) ?_
          (applyUpdate_set_mem l u hz)
        intro w hw
        rw [mkEntry_price]
        exact (List.rel_of_pairwise_cons hV hw).symm
      · exact ih (applyUpdate l v) (List.Pairwise.of_cons hV) hu'

theorem eq_of_price_eq_of_pricesNodup (l : List OrderBookEntry)
    (a b : OrderBookEntry) (h : pricesNodup l) (ha : a ∈ l) (hb : b ∈ l)
    (hp : a.price = b.price) : a = b := by
  induction l with
  | nil => cases ha
  | cons e es ih =>
      rcases List.mem_cons.mp ha with rfl | ha' <;> rcases List.mem_cons.mp hb with h2 | hb'
      · exact h2.symm
      · exact absurd hp (List.rel_of_pairwise_cons h hb')
      · subst h2
        exact absurd hp.symm (List.rel_of_pairwise_cons h ha')
      · exact ih (List.Pairwise.of_cons h) ha' hb'

theorem touchesPrice_eq_false_iff (t : List OrderBookEntry) (u : CoinbaseOrderBookUpdate) :
    touchesPrice t u = false ↔ ∀ e ∈ t, e.price ≠ u.price_level := by
  unfold touchesPrice
  rw [List.any_eq_false]
  constructor
  · intro h e he
    have := h e he
    simpa using this
  · intro h e he
    simpa using h e he

theorem touchesPrice_eq_true_iff (t : List OrderBookEntry) (u : CoinbaseOrderBookUpdate) :
    touchesPrice t u = true ↔ ∃ e ∈ t, e.price = u.price_level := by
  unfold touchesPrice
  rw [List.any_eq_true]
  simp

theorem foldl_applyUpdate_replay (V : List CoinbaseOrderBookUpdate)
    (t : List OrderBookEntry)
    (hVnd : updatesPricesNodup V)
    (Ht : ∀ u ∈ V, (sizeIsZero u = true → ∀ e ∈ t, e.price ≠ u.price_level) ∧
      (sizeIsZero u = false → ∀ e ∈ t, e.price = u.price_level → e = mkEntry u)) :
    ∀ acc : List OrderBookEntry,
      (∀ e ∈ acc, ∀ u ∈ V, e.price ≠ u.price_level) →
      V.foldl applyUpdate (t ++ acc) = t ++ acc ++ appendedEntries t V := by
  induction V with
  | nil =>
      intro acc _
      simp [appendedEntries]
  | cons u V' ih =>
      intro acc Hacc
      have hVnd' : updatesPricesNodup V' := List.Pairwise.of_cons hVnd
      have Ht' : ∀ v ∈ V', (sizeIsZero v = true → ∀ e ∈ t, e.price ≠ v.price_level) ∧
          (sizeIsZero v = false → ∀ e ∈ t, e.price = v.price_level → e = mkEntry v) :=
        fun v hv => Ht v (List.mem_cons_of_mem u hv)
      have hu := Ht u (List.mem_cons_self u V')
      rw [List.foldl_cons]
      by_cases hz : sizeIsZero u
      · have habs : ∀ e ∈ t ++ acc, e.price ≠ (mkEntry u).price := by
          intro e he
          rw [mkEntry_price]
          rcases List.mem_append.mp he with h' | h'
          · exact hu.1 hz e h'
          · exact Hacc e h' u (List.mem_cons_self u V')
        have hstep : applyUpdate (t ++ acc) u = t ++ acc := by
          unfold applyUpdate
          rw [if_pos hz]
          exact removeFirstByPrice_of_absent (mkEntry u).price (t ++ acc) habs
        rw [hstep, ih hVnd' Ht' acc (fun e he v hv => Hacc e he v (List.mem_cons_of_mem u hv))]
        have hfil : appendedEntries t (u :: V') = appendedEntries t V' := by
          unfold appendedEntries
          rw [List.filter_cons, if_neg (by simp [hz])]
        rw [hfil]
      · have hzf : sizeIsZero u = false := by
          cases h : sizeIsZero u
          · rfl
          · exact absurd h hz
        by_cases htc : touchesPrice t u
        · rcases (touchesPrice_eq_true_iff t u).mp htc with ⟨e, het, hep⟩
          have hem : e = mkEntry u := hu.2 hzf e het hep
          have hx : mkEntry u ∈ t ++ acc :=
            List.mem_append.mpr (Or.inl (hem ▸ het))
          have huniq : ∀ e' ∈ t ++ acc, e'.price = (mkEntry u).price → e' = mkEntry u := by
            intro e' he' hp'
            rw [mkEntry_price] at hp'
            rcases List.mem_append.mp he' with h' | h'
            · exact hu.2 hzf e' h' hp'
            · exact absurd hp' (Hacc e' h' u (List.mem_cons_self u V'))
          have hstep : applyUpdate (t ++ acc) u = t ++ acc := by
            unfold applyUpdate
            rw [if_neg (by simp [hzf])]
            exact replaceFirstOrAppend_self (mkEntry u) (t ++ acc) hx huniq
          rw [hstep, ih hVnd' Ht' acc (fun e' he' v hv => Hacc e' he' v (List.mem_cons_of_mem u hv))]
          have hfil : appendedEntries t (u :: V') = appendedEntries t V' := by
            unfold appendedEntries
            rw [List.filter_cons, if_neg (by simp [hzf, htc])]
          rw [hfil]
        · have htcf : touchesPrice t u = false := by
            cases h : touchesPrice t u
            · rfl
            · exact absurd h htc
          have habs : ∀ e ∈ t ++ acc, e.price ≠ (mkEntry u).price := by
            intro e he
            rw [mkEntry_price]
            rcases List.mem_append.mp he with h' | h'
            · exact (touchesPrice_eq_false_iff t u).mp htcf e h'
            · exact Hacc e h' u (List.mem_cons_self u V')
          have hstep : applyUpdate (t ++ acc) u = t ++ (acc ++ [mkEntry u]) := by
            unfold applyUpdate
            rw [if_neg (by simp [hzf])]
            rw [replaceFirstOrAppend_of_absent (mkEntry u) (t ++ acc) habs]
            rw [List.append_assoc]
          rw [hstep]
          have Hacc' : ∀ e ∈ acc ++ [mkEntry u], ∀ v ∈ V', e.price ≠ v.price_level := by
            intro e he v hv
            rcases List.mem_append.mp he with h' | h'
            · exact Hacc e h' v (List.mem_cons_of_mem u hv)
            · have : e = mkEntry u := by simpa using h'
              rw [this, mkEntry_price]
              exact List.rel_of_pairwise_cons hVnd hv
          rw [ih hVnd' Ht' (acc ++ [mkEntry u]) Hacc']
          have hfil : appendedEntries t (u :: V') = mkEntry u :: appendedEntries t V' := by
            unfold appendedEntries
            rw [List.filter_cons, if_pos (by simp [hzf, htcf])]
            rfl
          rw [hfil, List.append_assoc, List.append_assoc, List.append_assoc]
          rw [List.singleton_append]

theorem pricesNodup_of_perm {l l' : List OrderBookEntry}
    (h : List.Perm l l') (hnd : pricesNodup l) : pricesNodup l' := by
  unfold pricesNodup at hnd ⊢
  refine (List.Perm.pairwise_iff ?_ h).mp hnd
  intro a b hab
  exact Ne.symm hab

/-- Idempotence of the update processor under replay, amended: it holds
when the starting side-list has pairwise-distinct price strings and the
batch holds at most one update per price level on the processed side
(see the counterexample for why both restrictions are needed). -/
theorem processOrderBookUpdates_idempotent (currentEntries : List OrderBookEntry)
    (updates : List CoinbaseOrderBookUpdate) (side : Side)
    (h1 : pricesNodup currentEntries)
    (h2 : updatesPricesNodup (sideFilter updates side)) :
    processOrderBookUpdates (processOrderBookUpdates currentEntries updates side)
      updates side = processOrderBookUpdates currentEntries updates side := by
  have hLnd : pricesNodup ((sideFilter updates side).foldl applyUpdate currentEntries) :=
    pricesNodup_foldl_applyUpdate (sideFilter updates side) currentEntries h1
  set V := sideFilter updates side with hV
  set L := V.foldl applyUpdate currentEntries with hL
  set SL := stableSort (ltEntry side) L with hSL
  set t := SL.take ORDER_BOOK_DEPTH with ht
  have hproc : processOrderBookUpdates currentEntries updates side = t := rfl
  rw [hproc]
  have hSLperm : List.Perm SL L := stableSort_perm (ltEntry side) L
  have hSLnd : pricesNodup SL := pricesNodup_of_perm hSLperm.symm hLnd
  have htsub : List.Sublist t SL := List.take_sublist ORDER_BOOK_DEPTH SL
  have htnd : pricesNodup t := List.Pairwise.sublist htsub hSLnd
  have hSLpw : SL.Pairwise (fun a b => ltEntry side b a = false) :=
    pairwise_stableSort (ltEntry_trans side) (ltEntry_asymm side) L
  have hmemL : ∀ e ∈ t, e ∈ L := fun e he => hSLperm.mem_iff.mp (htsub.mem he)
  have Ht : ∀ u ∈ V, (sizeIsZero u = true → ∀ e ∈ t, e.price ≠ u.price_level) ∧
      (sizeIsZero u = false → ∀ e ∈ t, e.price = u.price_level → e = mkEntry u) := by
    intro u hu
    constructor
    · intro hz e he
      exact foldl_applyUpdate_final_zero V currentEntries u h1 h2 hu hz e (hmemL e he)
    · intro hz e he hp
      have hmk : mkEntry u ∈ L := foldl_applyUpdate_final_set V currentEntries u h2 hu hz
      exact eq_of_price_eq_of_pricesNodup L e (mkEntry u) hLnd (hmemL e he) hmk
        (by rw [hp, mkEntry_price])
  have hreplay : V.foldl applyUpdate t = t ++ appendedEntries t V := by
    have := foldl_applyUpdate_replay V t h2 Ht [] (by intro e he; cases he)
    simpa using this
  have hD : ∀ d ∈ appendedEntries t V, ∀ e ∈ t, ltEntry side d e = false := by
    intro d hd e he
    rcases List.mem_map.mp hd with ⟨u, hu', rfl⟩
    have hu : u ∈ V := List.mem_of_mem_filter hu'
    have hcond : sizeIsZero u = false ∧ touchesPrice t u = false := by
      simpa using List.of_mem_filter hu'
    have hzf : sizeIsZero u = false := hcond.1
    have htcf : touchesPrice t u = false := hcond.2
    have hdL : mkEntry u ∈ L := foldl_applyUpdate_final_set V currentEntries u h2 hu hzf
    have hdSL : mkEntry u ∈ SL := hSLperm.mem_iff.mpr hdL
    have hdnt : mkEntry u ∉ t := by
      intro hc
      have : touchesPrice t u = true :=
        (touchesPrice_eq_true_iff t u).mpr ⟨mkEntry u, hc, mkEntry_price u⟩
      rw [this] at htcf
      exact Bool.true_eq_false.mp htcf
    have hsplit : t ++ SL.drop ORDER_BOOK_DEPTH = SL := List.take_append_drop _ SL
    have hdrop : mkEntry u ∈ SL.drop ORDER_BOOK_DEPTH := by
      have := hdSL
      rw [← hsplit] at this
      rcases List.mem_append.mp this with h' | h'
      · exact absurd h' hdnt
      · exact h'
    have hpw' : (t ++ SL.drop ORDER_BOOK_DEPTH).Pairwise
        (fun a b => ltEntry side b a = false) := by
      rw [hsplit]
      exact hSLpw
    exact (List.pairwise_append.mp hpw').2.2 e he (mkEntry u) hdrop
  have hgoal : processOrderBookUpdates t updates side =
      (stableSort (ltEntry side) (t ++ appendedEntries t V)).take ORDER_BOOK_DEPTH := by
    unfold processOrderBookUpdates sortOrderBookEntries
    rw [← hV, hreplay]
  rw [hgoal]
  have htpw : t.Pairwise (fun a b => ltEntry side b a = false) :=
    List.Pairwise.sublist htsub hSLpw
  have hsort_t : stableSortAux (ltEntry side) [] t = t :=
    stableSort_of_pairwise (ltEntry side) t htpw
  have hsplitsort : stableSort (ltEntry side) (t ++ appendedEntries t V) =
      stableSortAux (ltEntry side) t (appendedEntries t V) := by
    unfold stableSort
    rw [stableSortAux_append, hsort_t]
  rcases (by
    have h0 : t = t ++ ([] : List OrderBookEntry) := (List.append_nil t).symm
    have := stableSortAux_front (ltEntry side) (appendedEntries t V) hD ([] : List OrderBookEntry)
    rw [← h0] at this
    exact this : ∃ Y, stableSortAux (ltEntry side) t (appendedEntries t V) = t ++ Y) with ⟨Y, hY⟩
  rw [hsplitsort, hY]
  have htlen : t.length ≤ ORDER_BOOK_DEPTH := by
    rw [ht, List.length_take]
    exact Nat.min_le_left _ _
  by_cases hYnil : Y = []
  · rw [hYnil, List.append_nil]
    exact List.take_of_length_le htlen
  · have hYperm : List.Perm Y (appendedEntries t V) := by
      have hp1 : List.Perm (stableSortAux (ltEntry side) t (appendedEntries t V))
          (t ++ appendedEntries t V) := stableSortAux_perm (ltEntry side) (appendedEntries t V) t
      rw [hY] at hp1
      exact (List.perm_append_left_iff t).mp hp1
    have hDnil : appendedEntries t V ≠ [] := by
      intro hc
      rw [hc] at hYperm
      exact hYnil (List.Perm.eq_nil hYperm)
    rcases List.exists_mem_of_ne_nil _ hDnil with ⟨d, hd⟩
    have hdrop : SL.drop ORDER_BOOK_DEPTH ≠ [] := by
      rcases List.mem_map.mp hd with ⟨u, hu', rfl⟩
      have hu : u ∈ V := List.mem_of_mem_filter hu'
      have hcond : sizeIsZero u = false ∧ touchesPrice t u = false := by
        simpa using List.of_mem_filter hu'
      have hzf : sizeIsZero u = false := hcond.1
      have htcf : touchesPrice t u = false := hcond.2
      have hdL : mkEntry u ∈ L := foldl_applyUpdate_final_set V currentEntries u h2 hu hzf
      have hdSL : mkEntry u ∈ SL := hSLperm.mem_iff.mpr hdL
      have hdnt : mkEntry u ∉ t := by
        intro hc
        have : touchesPrice t u = true :=
          (touchesPrice_eq_true_iff t u).mpr ⟨mkEntry u, hc, mkEntry_price u⟩
        rw [this] at htcf
        exact Bool.true_eq_false.mp htcf
      have hsplit : t ++ SL.drop ORDER_BOOK_DEPTH = SL := List.take_append_drop _ SL
      intro hnil
      rw [← hsplit, hnil, List.append_nil] at hdSL
      exact hdnt hdSL
    have hlen10 : t.length = ORDER_BOOK_DEPTH := by
      have hgt : ORDER_BOOK_DEPTH ≤ SL.length := by
        by_contra hc
        push_neg at hc
        exact hdrop (List.drop_eq_nil_of_le (Nat.le_of_lt hc))
      rw [ht, List.length_take]
      exact Nat.min_eq_left hgt
    rw [List.take_append_eq_append_take]
    rw [List.take_of_length_le htlen, hlen10]
    simp

/-- C2: the claim as frozen is false: from an empty bid side, a batch
holding several updates for price level "100" (set, delete, set) plus a
set at the tying level "100.0" produces, on replay, the two tying
entries in the opposite order (the delete of "100" removes it from its
stable-sort slot before "100.0" and the re-add appends it after). -/
theorem processOrderBookUpdates_not_idempotent :
    processOrderBookUpdates
        (processOrderBookUpdates []
          [⟨Side.bid, "100", "5", none⟩, ⟨Side.bid, "100", "0", none⟩,
           ⟨Side.bid, "100", "7", none⟩, ⟨Side.bid, "100.0", "1", none⟩] Side.bid)
        [⟨Side.bid, "100", "5", none⟩, ⟨Side.bid, "100", "0", none⟩,
         ⟨Side.bid, "100", "7", none⟩, ⟨Side.bid, "100.0", "1", none⟩] Side.bid ≠
      processOrderBookUpdates []
        [⟨Side.bid, "100", "5", none⟩, ⟨Side.bid, "100", "0", none⟩,
         ⟨Side.bid, "100", "7", none⟩, ⟨Side.bid, "100.0", "1", none⟩] Side.bid := by
  decide

/-- Witness for the amended idempotence theorem at a concrete input. -/
theorem processOrderBookUpdates_idempotent_witness :
    processOrderBookUpdates
        (processOrderBookUpdates [⟨"100", "1", "Coinbase"⟩]
          [⟨Side.bid, "99", "2", none⟩] Side.bid)
        [⟨Side.bid, "99", "2", none⟩] Side.bid =
      processOrderBookUpdates [⟨"100", "1", "Coinbase"⟩]
        [⟨Side.bid, "99", "2", none⟩] Side.bid :=
  processOrderBookUpdates_idempotent [⟨"100", "1", "Coinbase"⟩]
    [⟨Side.bid, "99", "2", none⟩] Side.bid
    (by unfold pricesNodup; decide) (by unfold updatesPricesNodup; decide)

theorem numOrdered_of_ltEntry_false (side : Side) (a b : OrderBookEntry)
    (h : ltEntry side b a = false) : numOrdered side a b := by
  intro qa qb hqa hqb
  unfold ltEntry at h
  unfold entryKey at h
  rw [hqa, hqb] at h
  cases side
  · simpa [decide_eq_false_iff_not] using h
  · simpa [decide_eq_false_iff_not] using h

theorem pairwise_numOrdered_processOrderBookUpdates (currentEntries : List OrderBookEntry)
    (updates : List CoinbaseOrderBookUpdate) (side : Side) :
    (processOrderBookUpdates currentEntries updates side).Pairwise (numOrdered side) := by
  unfold processOrderBookUpdates sortOrderBookEntries
  have base := List.Pairwise.sublist (List.take_sublist ORDER_BOOK_DEPTH _)
    (pairwise_stableSort (ltEntry_trans side) (ltEntry_asymm side)
      ((sideFilter updates side).foldl applyUpdate currentEntries))
  exact base.imp (fun h => numOrdered_of_ltEntry_false side _ _ h)

theorem length_processOrderBookUpdates_le (currentEntries : List OrderBookEntry)
    (updates : List CoinbaseOrderBookUpdate) (side : Side) :
    (processOrderBookUpdates currentEntries updates side).length ≤ ORDER_BOOK_DEPTH := by
  unfold processOrderBookUpdates
  rw [List.length_take]
  exact Nat.min_le_left _ _

/-- C8: every processed side-list and every snapshot side is sorted in
its required numeric order (descending parsed prices for bids,
ascending for offers) and holds at most ORDER_BOOK_DEPTH = 10
entries. -/
theorem processor_outputs_sorted_and_bounded :
    ∀ (currentEntries : List OrderBookEntry) (updates : List CoinbaseOrderBookUpdate)
      (side : Side) (snapshotUpdates : List CoinbaseOrderBookUpdate),
      ((processOrderBookUpdates currentEntries updates side).length ≤ ORDER_BOOK_DEPTH ∧
        (processOrderBookUpdates currentEntries updates side).Pairwise (numOrdered side)) ∧
      ((createOrderBookSnapshot snapshotUpdates).bids.length ≤ ORDER_BOOK_DEPTH ∧
        (createOrderBookSnapshot snapshotUpdates).bids.Pairwise (numOrdered Side.bid)) ∧
      ((createOrderBookSnapshot snapshotUpdates).asks.length ≤ ORDER_BOOK_DEPTH ∧
        (createOrderBookSnapshot snapshotUpdates).asks.Pairwise (numOrdered Side.offer)) := by
  intro currentEntries updates side snapshotUpdates
  refine ⟨⟨length_processOrderBookUpdates_le currentEntries updates side,
    pairwise_numOrdered_processOrderBookUpdates currentEntries updates side⟩, ⟨?_, ?_⟩, ?_, ?_⟩
  · unfold createOrderBookSnapshot
    rw [List.length_take]
    exact Nat.min_le_left _ _
  · unfold createOrderBookSnapshot sortOrderBookEntries
    have base := List.Pairwise.sublist (List.take_sublist ORDER_BOOK_DEPTH _)
      (pairwise_stableSort (ltEntry_trans Side.bid) (ltEntry_asymm Side.bid)
        ((sideFilter snapshotUpdates Side.bid).map mkEntry))
    exact base.imp (fun h => numOrdered_of_ltEntry_false Side.bid _ _ h)
  · unfold createOrderBookSnapshot
    rw [List.length_take]
    exact Nat.min_le_left _ _
  · unfold createOrderBookSnapshot sortOrderBookEntries
    have base := List.Pairwise.sublist (List.take_sublist ORDER_BOOK_DEPTH _)
      (pairwise_stableSort (ltEntry_trans Side.offer) (ltEntry_asymm Side.offer)
        ((sideFilter snapshotUpdates Side.offer).map mkEntry))
    exact base.imp (fun h => numOrdered_of_ltEntry_false Side.offer _ _ h)

/-- C5: the claim as frozen is false: a snapshot batch carrying the same
price level twice on one side survives into the built book unmerged, so
two entries of the bid side parse to the same numeric price. -/
theorem snapshot_duplicate_price_counterexample :
    ¬ (createOrderBookSnapshot
        [⟨Side.bid, "100", "1", none⟩, ⟨Side.bid, "100", "2", none⟩]).bids.Pairwise
      (fun a b => parseFloat a.price ≠ parseFloat b.price) := by
  decide

/-- C5 amended: price-string uniqueness is an invariant when it holds of
the inputs: the processor preserves pairwise-distinct price strings of
the starting side, and a snapshot side has pairwise-distinct price
strings whenever the batch's updates for that side do. -/
theorem prices_unique_amended (currentEntries : List OrderBookEntry)
    (updates : List CoinbaseOrderBookUpdate) (side : Side)
    (snapshotUpdates : List CoinbaseOrderBookUpdate)
    (h1 : pricesNodup currentEntries)
    (h2 : updatesPricesNodup (sideFilter snapshotUpdates Side.bid))
    (h3 : updatesPricesNodup (sideFilter snapshotUpdates Side.offer)) :
    pricesNodup (processOrderBookUpdates currentEntries updates side) ∧
    pricesNodup (createOrderBookSnapshot snapshotUpdates).bids ∧
    pricesNodup (createOrderBookSnapshot snapshotUpdates).asks := by
  refine ⟨?_, ?_, ?_⟩
  · unfold processOrderBookUpdates sortOrderBookEntries
    refine List.Pairwise.sublist (List.take_sublist _ _) ?_
    refine pricesNodup_of_perm (stableSort_perm _ _).symm ?_
    exact pricesNodup_foldl_applyUpdate _ _ h1
  · unfold createOrderBookSnapshot sortOrderBookEntries
    refine List.Pairwise.sublist (List.take_sublist _ _) ?_
    refine pricesNodup_of_perm (stableSort_perm _ _).symm ?_
    unfold pricesNodup
    rw [List.pairwise_map]
    exact h2
  · unfold createOrderBookSnapshot sortOrderBookEntries
    refine List.Pairwise.sublist (List.take_sublist _ _) ?_
    refine pricesNodup_of_perm (stableSort_perm _ _).symm ?_
    unfold pricesNodup
    rw [List.pairwise_map]
    exact h3

/-- Witness for the amended uniqueness theorem at a concrete input. -/
theorem prices_unique_amended_witness :
    pricesNodup (processOrderBookUpdates [⟨"100", "1", "Coinbase"⟩]
      [⟨Side.bid, "100.0", "2", none⟩] Side.bid) ∧
    pricesNodup (createOrderBookSnapshot
      [⟨Side.bid, "100", "1", none⟩, ⟨Side.offer, "101", "1", none⟩]).bids ∧
    pricesNodup (createOrderBookSnapshot
      [⟨Side.bid, "100", "1", none⟩, ⟨Side.offer, "101", "1", none⟩]).asks :=
  prices_unique_amended [⟨"100", "1", "Coinbase"⟩] [⟨Side.bid, "100.0", "2", none⟩]
    Side.bid [⟨Side.bid, "100", "1", none⟩, ⟨Side.offer, "101", "1", none⟩]
    (by unfold pricesNodup; decide) (by unfold updatesPricesNodup; decide)
    (by unfold updatesPricesNodup; decide)

/-- C3: the claim as frozen is false of sortOrderBookEntries, which
sorts its argument array in place: after the call the argument holds the
reordered contents, not its original value. -/
theorem sortOrderBookEntries_mutates_argument :
    (sortOrderBookEntriesST [⟨"1", "1", "Coinbase"⟩, ⟨"2", "1", "Coinbase"⟩] Side.bid).2 ≠
      [⟨"1", "1", "Coinbase"⟩, ⟨"2", "1", "Coinbase"⟩] := by
  decide

/-- C3 amended: processOrderBookUpdates, createOrderBookSnapshot and
calculateMidPrice leave their arguments unchanged (the first copies
before mutating, the others allocate fresh arrays); sortOrderBookEntries
returns its argument sorted in place, so its argument after the call
equals the returned sorted array rather than the original. -/
theorem processor_purity_amended :
    ∀ (currentEntries : List OrderBookEntry) (updates : List CoinbaseOrderBookUpdate)
      (side : Side) (snapshotUpdates : List CoinbaseOrderBookUpdate)
      (ob : OrderBookData) (entries : List OrderBookEntry),
      (processOrderBookUpdatesST currentEntries updates side).2 = currentEntries ∧
      (createOrderBookSnapshotST snapshotUpdates).2 = snapshotUpdates ∧
      (calculateMidPriceST ob).2 = ob ∧
      (sortOrderBookEntriesST entries side).2 = sortOrderBookEntries entries side :=
  fun _ _ _ _ _ _ => ⟨rfl, rfl, rfl, rfl⟩

/-- C9: calculateMidPrice is null exactly when a side is empty, and on
two non-empty sides returns the average of the parsed best bid and best
ask. -/
theorem calculateMidPrice_spec (ob : OrderBookData) :
    (calculateMidPrice ob = none ↔ ob.bids = [] ∨ ob.asks = []) ∧
    (∀ (b a : OrderBookEntry) (bs as : List OrderBookEntry),
      ob.bids = b :: bs → ob.asks = a :: as →
      calculateMidPrice ob =
        some (jsDivN (jsAdd (parseFloat b.price) (parseFloat a.price)) (some 2))) := by
  obtain ⟨bids, asks, lu⟩ := ob
  cases bids with
  | nil =>
      constructor
      · simp [calculateMidPrice]
      · intro b a bs as hb ha
        cases hb
  | cons b0 bs0 =>
      cases asks with
      | nil =>
          constructor
          · simp [calculateMidPrice]
          · intro b a bs as hb ha
            cases ha
      | cons a0 as0 =>
          constructor
          · simp [calculateMidPrice]
          · intro b a bs as hb ha
            simp only at hb ha
            injection hb with hb1 _
            injection ha with ha1 _
            subst hb1
            subst ha1
            rfl

/-- C1: evaluation of the dispatch model at the failing input: with two
registered callbacks of which the first throws, the second is never
invoked and the connection state comes out of handleMessage's catch
carrying a PARSING_ERROR — the code does not isolate callback
invocations as the specification requires. -/
theorem callback_throw_not_isolated :
    (dispatchPriceUpdate ⟨true, false, none⟩ [⟨1, true⟩, ⟨2, false⟩]).1 = [1] ∧
    2 ∉ (dispatchPriceUpdate ⟨true, false, none⟩ [⟨1, true⟩, ⟨2, false⟩]).1 ∧
    (dispatchPriceUpdate ⟨true, false, none⟩ [⟨1, true⟩, ⟨2, false⟩]).2 =
      ⟨true, false, some WebSocketErrorCode.PARSING_ERROR⟩ ∧
    (dispatchPriceUpdate ⟨true, false, none⟩ [⟨1, true⟩, ⟨2, false⟩]).2 ≠
      ⟨true, false, none⟩ := by
  decide

/-- C6: the delay scheduled before the Nth reconnection attempt in a run
of consecutive abnormal closures is min(base * 2^(N-1), maxDelay), and
the closure after the 5th attempt reports MAX_RECONNECT_ATTEMPTS and
schedules nothing. -/
theorem reconnect_backoff (N : Nat) (h1 : 1 ≤ N) (h2 : N ≤ MAX_RECONNECT_ATTEMPTS) :
    (simulateAbnormalCloses N).2.getLast? =
      some (CloseAction.schedule
        (min (RECONNECT_BASE_DELAY * 2 ^ (N - 1)) MAX_RECONNECT_DELAY)) ∧
    (simulateAbnormalCloses (MAX_RECONNECT_ATTEMPTS + 1)).2.getLast? =
      some CloseAction.reportMaxAttempts ∧
    ∀ d : Nat, (simulateAbnormalCloses (MAX_RECONNECT_ATTEMPTS + 1)).2.getLast? ≠
      some (CloseAction.schedule d) := by
  have hmax : MAX_RECONNECT_ATTEMPTS = 5 := rfl
  rw [hmax] at h2
  refine ⟨?_, by decide, ?_⟩
  · interval_cases N <;> decide
  · intro d hc
    have hlast : (simulateAbnormalCloses (MAX_RECONNECT_ATTEMPTS + 1)).2.getLast? =
        some CloseAction.reportMaxAttempts := by decide
    rw [hlast] at hc
    cases hc

/-- Witness for the backoff theorem at the third attempt. -/
theorem reconnect_backoff_witness :
    (simulateAbnormalCloses 3).2.getLast? =
      some (CloseAction.schedule
        (min (RECONNECT_BASE_DELAY * 2 ^ (3 - 1)) MAX_RECONNECT_DELAY)) ∧
    (simulateAbnormalCloses (MAX_RECONNECT_ATTEMPTS + 1)).2.getLast? =
      some CloseAction.reportMaxAttempts ∧
    ∀ d : Nat, (simulateAbnormalCloses (MAX_RECONNECT_ATTEMPTS + 1)).2.getLast? ≠
      some (CloseAction.schedule d) :=
  reconnect_backoff 3 (by decide) (by decide)

/-- C7: subscriptions are reference-counted: two subscribes followed by
one unsubscribe leave the product registered with count 1, its (empty)
order book retained and no unsubscribe message sent; the next
unsubscribe removes product, book and count entry and sends the
unsubscribe message (when the socket is open); one further unsubscribe
is a no-op. -/
theorem subscription_refcounted (p : String) (c : Bool) :
    unsubscribeFromProduct (subscribeToProduct (subscribeToProduct (initialClient c) p) p) p =
      { wsOpen := c
        subscribedProducts := [p]
        subscriptionCounts := [(p, 1)]
        orderBooks := [(p, emptyOrderBook)]
        sent := if c then
          [{ type := SubType.subscribe, product_ids := [p], channel := "level2" }]
          else [] } ∧
    unsubscribeFromProduct
        { wsOpen := c
          subscribedProducts := [p]
          subscriptionCounts := [(p, 1)]
          orderBooks := [(p, emptyOrderBook)]
          sent := if c then
            [{ type := SubType.subscribe, product_ids := [p], channel := "level2" }]
            else [] } p =
      { wsOpen := c
        subscribedProducts := []
        subscriptionCounts := []
        orderBooks := []
        sent := if c then
          [{ type := SubType.subscribe, product_ids := [p], channel := "level2" },
           { type := SubType.unsubscribe, product_ids := [p], channel := "level2" }]
          else [] } ∧
    unsubscribeFromProduct
        { wsOpen := c
          subscribedProducts := []
          subscriptionCounts := []
          orderBooks := []
          sent := if c then
            [{ type := SubType.subscribe, product_ids := [p], channel := "level2" },
             { type := SubType.unsubscribe, product_ids := [p], channel := "level2" }]
            else [] } p =
      { wsOpen := c
        subscribedProducts := []
        subscriptionCounts := []
        orderBooks := []
        sent := if c then
          [{ type := SubType.subscribe, product_ids := [p], channel := "level2" },
           { type := SubType.unsubscribe, product_ids := [p], channel := "level2" }]
          else [] } := by
  cases c <;>
    simp [initialClient, subscribeToProduct, unsubscribeFromProduct,
      sendSubscriptionMessage, mapGet, mapSet, mapDelete, setAdd, setRemove,
      emptyOrderBook, List.find?]

theorem mapGet_mapSet_self {β : Type} (m : List (String × β)) (k : String) (v : β) :
    mapGet (mapSet m k v) k = some v := by
  induction m with
  | nil => simp [mapGet, mapSet, List.find?]
  | cons q rest ih =>
      by_cases hq : q.1 = k
      · simp [mapGet, mapSet, hq, List.find?]
      · simp only [mapSet, hq, if_false]
        simpa [mapGet, List.find?, hq] using ih

theorem mapGet_mapSet_ne {β : Type} (m : List (String × β)) (k k' : String) (v : β)
    (h : k' ≠ k) : mapGet (mapSet m k v) k' = mapGet m k' := by
  have hkk : decide (k = k') = false := by
    simp only [decide_eq_false_iff_not]
    exact fun hc => h hc.symm
  induction m with
  | nil => simp [mapGet, mapSet, List.find?, hkk]
  | cons q rest ih =>
      by_cases hq : q.1 = k
      · simp [mapGet, mapSet, hq, List.find?, hkk]
      · simp only [mapSet, hq, if_false]
        by_cases hq2 : q.1 = k'
        · simp [mapGet, List.find?, hq2]
        · simpa [mapGet, List.find?, hq2] using ih

theorem mapGet_mapDelete_self {β : Type} (m : List (String × β)) (k : String) :
    mapGet (mapDelete m k) k = none := by
  induction m with
  | nil => simp [mapGet, mapDelete]
  | cons q rest ih =>
      by_cases hq : q.1 = k
      · simp only [mapDelete, List.filter_cons, hq, decide_True, Bool.not_true,
          Bool.false_eq_true, if_false] at ih ⊢
        exact ih
      · simp only [mapDelete, List.filter_cons, hq, decide_False, Bool.not_false,
          if_true] at ih ⊢
        rw [show mapGet (q :: List.filter (fun r => !decide (r.1 = k)) rest) k =
          mapGet (List.filter (fun r => !decide (r.1 = k)) rest) k from by
            simp [mapGet, List.find?, hq]]
        exact ih

theorem mapGet_mapDelete_ne {β : Type} (m : List (String × β)) (k k' : String)
    (h : k' ≠ k) : mapGet (mapDelete m k) k' = mapGet m k' := by
  induction m with
  | nil => simp [mapGet, mapDelete]
  | cons q rest ih =>
      by_cases hq : q.1 = k
      · have hq2 : ¬ (q.1 = k') := by
          rw [hq]
          exact fun hc => h hc.symm
        simp only [mapDelete, List.filter_cons, hq, decide_True, Bool.not_true,
          Bool.false_eq_true, if_false] at ih ⊢
        rw [ih]
        simp [mapGet, List.find?, hq2]
      · simp only [mapDelete, List.filter_cons, hq, decide_False, Bool.not_false,
          if_true] at ih ⊢
        by_cases hq2 : q.1 = k'
        · simp [mapGet, List.find?, hq2]
        · simpa [mapGet, List.find?, hq2] using ih

theorem mem_setAdd (s : List String) (k q : String) :
    q ∈ setAdd s k ↔ q = k ∨ q ∈ s := by
  unfold setAdd
  by_cases h : k ∈ s
  · rw [if_pos h]
    constructor
    · exact fun hq => Or.inr hq
    · intro hq
      rcases hq with rfl | hq
      · exact h
      · exact hq
  · rw [if_neg h]
    rw [List.mem_append]
    simp [or_comm]

theorem mem_setRemove (s : List String) (k q : String) :
    q ∈ setRemove s k ↔ q ∈ s ∧ q ≠ k := by
  unfold setRemove
  rw [List.mem_filter]
  simp

theorem sendSubscriptionMessage_subscribedProducts (st : ClientModel) (ty : SubType)
    (ids : List String) :
    (sendSubscriptionMessage st ty ids).subscribedProducts = st.subscribedProducts := by
  unfold sendSubscriptionMessage
  by_cases h : st.wsOpen
  · rw [if_pos h]
  · rw [if_neg h]

theorem sendSubscriptionMessage_subscriptionCounts (st : ClientModel) (ty : SubType)
    (ids : List String) :
    (sendSubscriptionMessage st ty ids).subscriptionCounts = st.subscriptionCounts := by
  unfold sendSubscriptionMessage
  by_cases h : st.wsOpen
  · rw [if_pos h]
  · rw [if_neg h]

theorem sendSubscriptionMessage_orderBooks (st : ClientModel) (ty : SubType)
    (ids : List String) :
    (sendSubscriptionMessage st ty ids).orderBooks = st.orderBooks := by
  unfold sendSubscriptionMessage
  by_cases h : st.wsOpen
  · rw [if_pos h]
  · rw [if_neg h]

theorem subscribeToProduct_of_none (st : ClientModel) (p : String)
    (hc : mapGet st.subscriptionCounts p = none) :
    subscribeToProduct st p =
      sendSubscriptionMessage
        { st with
          subscriptionCounts := mapSet st.subscriptionCounts p 1
          subscribedProducts := setAdd st.subscribedProducts p
          orderBooks := mapSet st.orderBooks p emptyOrderBook }
        SubType.subscribe [p] := by
  unfold subscribeToProduct
  rw [hc]
  rfl

theorem subscribeToProduct_of_some (st : ClientModel) (p : String) (n : Nat)
    (hc : mapGet st.subscriptionCounts p = some n) (hn : n ≠ 0) :
    subscribeToProduct st p =
      { st with subscriptionCounts := mapSet st.subscriptionCounts p (n + 1) } := by
  unfold subscribeToProduct
  rw [hc]
  simp only [Option.getD_some]
  rw [if_neg hn]

theorem unsubscribeFromProduct_of_none (st : ClientModel) (p : String)
    (hc : mapGet st.subscriptionCounts p = none) :
    unsubscribeFromProduct st p = st := by
  unfold unsubscribeFromProduct
  rw [hc]
  rfl

theorem unsubscribeFromProduct_of_one (st : ClientModel) (p : String)
    (hc : mapGet st.subscriptionCounts p = some 1) :
    unsubscribeFromProduct st p =
      sendSubscriptionMessage
        { st with
          subscriptionCounts := mapDelete (mapSet st.subscriptionCounts p 0) p
          subscribedProducts := setRemove st.subscribedProducts p
          orderBooks := mapDelete st.orderBooks p }
        SubType.unsubscribe [p] := by
  unfold unsubscribeFromProduct
  rw [hc]
  rfl

theorem unsubscribeFromProduct_of_many (st : ClientModel) (p : String) (n : Nat)
    (hc : mapGet st.subscriptionCounts p = some n) (hn : n ≠ 0) (hn1 : n - 1 ≠ 0) :
    unsubscribeFromProduct st p =
      { st with subscriptionCounts := mapSet st.subscriptionCounts p (n - 1) } := by
  unfold unsubscribeFromProduct
  rw [hc]
  simp only [Option.getD_some]
  rw [if_neg hn, if_neg hn1]

theorem registryConsistent_subscribe (st : ClientModel) (p : String)
    (h : RegistryConsistent st) : RegistryConsistent (subscribeToProduct st p) := by
  rcases hc : mapGet st.subscriptionCounts p with _ | n
  · rw [subscribeToProduct_of_none st p hc]
    intro q
    rw [sendSubscriptionMessage_subscribedProducts, sendSubscriptionMessage_subscriptionCounts,
      sendSubscriptionMessage_orderBooks]
    simp only
    by_cases hq : q = p
    · subst hq
      refine ⟨?_, ?_, ?_⟩
      · rw [mapGet_mapSet_self]
        simp [mem_setAdd]
      · rw [mapGet_mapSet_self]
        simp [mem_setAdd]
      · intro m hm
        rw [mapGet_mapSet_self] at hm
        injection hm with hm
        omega
    · refine ⟨?_, ?_, ?_⟩
      · rw [mapGet_mapSet_ne _ _ _ _ hq, mem_setAdd]
        rw [(h q).1]
        simp [hq]
      · rw [mapGet_mapSet_ne _ _ _ _ hq, mem_setAdd]
        rw [(h q).2.1]
        simp [hq]
      · intro m hm
        rw [mapGet_mapSet_ne _ _ _ _ hq] at hm
        exact (h q).2.2 m hm
  · have hn1 : 1 ≤ n := (h p).2.2 n hc
    rw [subscribeToProduct_of_some st p n hc (by omega)]
    intro q
    simp only
    by_cases hq : q = p
    · subst hq
      refine ⟨?_, ?_, ?_⟩
      · rw [mapGet_mapSet_self]
        simp only [Option.isSome_some, true_iff]
        have := (h q).1
        rw [hc] at this
        exact this.mp rfl
      · exact (h q).2.1
      · intro m hm
        rw [mapGet_mapSet_self] at hm
        injection hm with hm
        omega
    · refine ⟨?_, ?_, ?_⟩
      · rw [mapGet_mapSet_ne _ _ _ _ hq]
        exact (h q).1
      · exact (h q).2.1
      · intro m hm
        rw [mapGet_mapSet_ne _ _ _ _ hq] at hm
        exact (h q).2.2 m hm

theorem registryConsistent_unsubscribe (st : ClientModel) (p : String)
    (h : RegistryConsistent st) : RegistryConsistent (unsubscribeFromProduct st p) := by
  rcases hc : mapGet st.subscriptionCounts p with _ | n
  · rw [unsubscribeFromProduct_of_none st p hc]
    exact h
  · have hn1 : 1 ≤ n := (h p).2.2 n hc
    by_cases hone : n = 1
    · subst hone
      rw [unsubscribeFromProduct_of_one st p hc]
      intro q
      rw [sendSubscriptionMessage_subscribedProducts, sendSubscriptionMessage_subscriptionCounts,
        sendSubscriptionMessage_orderBooks]
      simp only
      by_cases hq : q = p
      · subst hq
        refine ⟨?_, ?_, ?_⟩
        · rw [mapGet_mapDelete_self]
          simp [mem_setRemove]
        · rw [mapGet_mapDelete_self]
          simp [mem_setRemove]
        · intro m hm
          rw [mapGet_mapDelete_self] at hm
          cases hm
      · refine ⟨?_, ?_, ?_⟩
        · rw [mapGet_mapDelete_ne _ _ _ hq, mapGet_mapSet_ne _ _ _ _ hq, mem_setRemove]
          rw [(h q).1]
          simp [hq]
        · rw [mapGet_mapDelete_ne _ _ _ hq, mem_setRemove]
          rw [(h q).2.1]
          simp [hq]
        · intro m hm
          rw [mapGet_mapDelete_ne _ _ _ hq, mapGet_mapSet_ne _ _ _ _ hq] at hm
          exact (h q).2.2 m hm
    · rw [unsubscribeFromProduct_of_many st p n hc (by omega) (by omega)]
      intro q
      simp only
      by_cases hq : q = p
      · subst hq
        refine ⟨?_, ?_, ?_⟩
        · rw [mapGet_mapSet_self]
          simp only [Option.isSome_some, true_iff]
          have := (h q).1
          rw [hc] at this
          exact this.mp rfl
        · exact (h q).2.1
        · intro m hm
          rw [mapGet_mapSet_self] at hm
          injection hm with hm
          omega
      · refine ⟨?_, ?_, ?_⟩
        · rw [mapGet_mapSet_ne _ _ _ _ hq]
          exact (h q).1
        · exact (h q).2.1
        · intro m hm
          rw [mapGet_mapSet_ne _ _ _ _ hq] at hm
          exact (h q).2.2 m hm

theorem registryConsistent_event (st : ClientModel) (e : CoinbaseWebSocketEvent)
    (h : RegistryConsistent st) : RegistryConsistent (processOrderBookEvent st e) := by
  unfold processOrderBookEvent
  by_cases hskip : e.product_id = "" ∨ e.product_id ∉ st.subscribedProducts
  · rw [if_pos hskip]
    exact h
  · rw [if_neg hskip]
    push_neg at hskip
    have hmem : e.product_id ∈ st.subscribedProducts := hskip.2
    have hbook : (mapGet st.orderBooks e.product_id).isSome :=
      ((h e.product_id).2.1).mpr hmem
    cases he : e.type
    · unfold handleOrderBookSnapshot
      intro q
      simp only
      by_cases hq : q = e.product_id
      · subst hq
        refine ⟨(h e.product_id).1, ?_, (h e.product_id).2.2⟩
        rw [mapGet_mapSet_self]
        simp only [Option.isSome_some, true_iff]
        exact hmem
      · refine ⟨(h q).1, ?_, (h q).2.2⟩
        rw [mapGet_mapSet_ne _ _ _ _ hq]
        exact (h q).2.1
    · unfold handleOrderBookUpdate
      rcases hob : mapGet st.orderBooks e.product_id with _ | ob
      · exact h
      · intro q
        simp only
        by_cases hq : q = e.product_id
        · subst hq
          refine ⟨(h e.product_id).1, ?_, (h e.product_id).2.2⟩
          rw [mapGet_mapSet_self]
          simp only [Option.isSome_some, true_iff]
          exact hmem
        · refine ⟨(h q).1, ?_, (h q).2.2⟩
          rw [mapGet_mapSet_ne _ _ _ _ hq]
          exact (h q).2.1

theorem registryConsistent_events (events : List CoinbaseWebSocketEvent)
    (st : ClientModel) (h : RegistryConsistent st) :
    RegistryConsistent (processOrderBookEvents st events) := by
  induction events generalizing st with
  | nil => exact h
  | cons e es ih => exact ih (processOrderBookEvent st e) (registryConsistent_event st e h)

theorem registryConsistent_op (st : ClientModel) (op : ClientOp)
    (h : RegistryConsistent st) : RegistryConsistent (applyClientOp st op) := by
  cases op with
  | sub p => exact registryConsistent_subscribe st p h
  | unsub p => exact registryConsistent_unsubscribe st p h
  | feed es => exact registryConsistent_events es st h

theorem registryConsistent_initial (c : Bool) : RegistryConsistent (initialClient c) := by
  intro q
  refine ⟨?_, ?_, ?_⟩
  · simp [initialClient, mapGet]
  · simp [initialClient, mapGet]
  · intro n hn
    simp [initialClient, mapGet] at hn

/-- C10: starting from a fresh client, after any sequence of subscribe
calls, unsubscribe calls and processed feed messages, the key sets of
the order-book map and of the count map both coincide with the
subscribed-product set, and every stored count is at least 1. -/
theorem registry_consistency :
    ∀ (c : Bool) (ops : List ClientOp),
      RegistryConsistent (runClientOps (initialClient c) ops) := by
  intro c ops
  have run : ∀ (l : List ClientOp) (st : ClientModel), RegistryConsistent st →
      RegistryConsistent (runClientOps st l) := by
    intro l
    induction l with
    | nil => exact fun st h => h
    | cons op l' ih =>
        intro st h
        exact ih (applyClientOp st op) (registryConsistent_op st op h)
  exact run ops (initialClient c) (registryConsistent_initial c)

theorem jsAdd_comm (a b : JSNum) : jsAdd a b = jsAdd b a := by
  cases a <;> cases b <;> simp [jsAdd, qAdd_eq, add_comm]

theorem jsAdd_assoc (a b c : JSNum) : jsAdd (jsAdd a b) c = jsAdd a (jsAdd b c) := by
  cases a <;> cases b <;> cases c <;> simp [jsAdd, qAdd_eq, add_assoc]

theorem jsAdd_left_comm (a b c : JSNum) : jsAdd a (jsAdd b c) = jsAdd b (jsAdd a c) := by
  rw [← jsAdd_assoc, jsAdd_comm a b, jsAdd_assoc]

theorem foldr_jsAdd_init (l : List JSNum) (x i : JSNum) :
    l.foldr jsAdd (jsAdd x i) = jsAdd x (l.foldr jsAdd i) := by
  induction l with
  | nil => rfl
  | cons y ys ih =>
      simp only [List.foldr_cons, ih]
      exact jsAdd_left_comm y x (ys.foldr jsAdd i)

theorem foldr_jsAdd_perm (l l' : List JSNum) (h : List.Perm l l') (i : JSNum) :
    l.foldr jsAdd i = l'.foldr jsAdd i := by
  induction h with
  | nil => rfl
  | cons x _ ih => simp only [List.foldr_cons, ih]
  | swap x y l => simp only [List.foldr_cons, jsAdd_left_comm]
  | trans _ _ ih1 ih2 => rw [ih1, ih2]

theorem insertAgg_totals (k sz : JSNum) (ex : String)
    (acc : List (JSNum × JSNum × List String)) :
    ((insertAgg k sz ex acc).map (fun b => b.2.1)).foldr jsAdd (some 0) =
      jsAdd sz ((acc.map (fun b => b.2.1)).foldr jsAdd (some 0)) := by
  induction acc with
  | nil =>
      simp only [insertAgg, List.map_cons, List.map_nil, List.foldr_cons, List.foldr_nil]
  | cons b rest ih =>
      rcases b with ⟨k', t, s⟩
      by_cases hk : k' = k
      · simp only [insertAgg, hk, if_true, List.map_cons, List.foldr_cons]
        rw [jsAdd_assoc, jsAdd_left_comm t sz]
      · simp only [insertAgg, hk, if_false, List.map_cons, List.foldr_cons, ih]
        exact jsAdd_left_comm t sz _

theorem foldl_insertAgg_totals (isBid : Bool) (actualIncrement : JSNum)
    (orders : List OrderBookEntry) :
    ∀ acc : List (JSNum × JSNum × List String),
      ((orders.foldl
          (fun acc o => insertAgg (bucketPrice isBid actualIncrement o)
            (parseFloat o.size) o.exchange acc) acc).map (fun b => b.2.1)).foldr
        jsAdd (some 0) =
      (orders.map (fun o => parseFloat o.size)).foldr jsAdd
        ((acc.map (fun b => b.2.1)).foldr jsAdd (some 0)) := by
  induction orders with
  | nil => intro acc; rfl
  | cons o os ih =>
      intro acc
      simp only [List.foldl_cons, List.map_cons, List.foldr_cons]
      rw [ih (insertAgg (bucketPrice isBid actualIncrement o) (parseFloat o.size) o.exchange acc)]
      rw [insertAgg_totals]
      rw [foldr_jsAdd_init]

theorem insertAgg_length (k sz : JSNum) (ex : String)
    (acc : List (JSNum × JSNum × List String)) :
    (insertAgg k sz ex acc).length ≤ acc.length + 1 := by
  induction acc with
  | nil => simp [insertAgg]
  | cons b rest ih =>
      rcases b with ⟨k', t, s⟩
      by_cases hk : k' = k
      · simp [insertAgg, hk]
      · simp only [insertAgg, hk, if_false, List.length_cons]
        omega

theorem foldl_insertAgg_length (isBid : Bool) (actualIncrement : JSNum)
    (orders : List OrderBookEntry) :
    ∀ acc : List (JSNum × JSNum × List String),
      (orders.foldl
          (fun acc o => insertAgg (bucketPrice isBid actualIncrement o)
            (parseFloat o.size) o.exchange acc) acc).length ≤
        acc.length + orders.length := by
  induction orders with
  | nil => intro acc; simp
  | cons o os ih =>
      intro acc
      simp only [List.foldl_cons, List.length_cons]
      calc (os.foldl _ (insertAgg (bucketPrice isBid actualIncrement o)
            (parseFloat o.size) o.exchange acc)).length ≤
          (insertAgg (bucketPrice isBid actualIncrement o)
            (parseFloat o.size) o.exchange acc).length + os.length := ih _
        _ ≤ acc.length + 1 + os.length := by
            have := insertAgg_length (bucketPrice isBid actualIncrement o)
              (parseFloat o.size) o.exchange acc
            omega
        _ = acc.length + (os.length + 1) := by omega

theorem sumSizesOut_map_entryToAgg (orders : List OrderBookEntry) :
    sumSizesOut (orders.map entryToAgg) = sumSizesIn orders := by
  unfold sumSizesOut sumSizesIn
  rw [List.map_map]
  rfl

theorem aggregate_main_branch (isBid : Bool) (ai : JSNum) (orders : List OrderBookEntry)
    (hlen : orders.length ≤ 10) :
    sumSizesOut ((stableSort (ltAgg isBid)
        ((orders.foldl (fun acc o => insertAgg (bucketPrice isBid ai o)
          (parseFloat o.size) o.exchange acc) []).map aggMapEntry)).take 10) =
      sumSizesIn orders := by
  have hperm : List.Perm
      (stableSort (ltAgg isBid)
        ((orders.foldl (fun acc o => insertAgg (bucketPrice isBid ai o)
          (parseFloat o.size) o.exchange acc) []).map aggMapEntry))
      ((orders.foldl (fun acc o => insertAgg (bucketPrice isBid ai o)
          (parseFloat o.size) o.exchange acc) []).map aggMapEntry) :=
    stableSort_perm _ _
  have hm : (orders.foldl (fun acc o => insertAgg (bucketPrice isBid ai o)
      (parseFloat o.size) o.exchange acc) []).length ≤ orders.length := by
    simpa using foldl_insertAgg_length isBid ai orders []
  have hlen10 : (stableSort (ltAgg isBid)
      ((orders.foldl (fun acc o => insertAgg (bucketPrice isBid ai o)
        (parseFloat o.size) o.exchange acc) []).map aggMapEntry)).length ≤ 10 := by
    rw [hperm.length_eq, List.length_map]
    omega
  rw [List.take_of_length_le hlen10]
  unfold sumSizesOut
  rw [foldr_jsAdd_perm _ _ (hperm.map AggEntry.size) (some 0)]
  rw [List.map_map]
  have hcomp : (orders.foldl (fun acc o => insertAgg (bucketPrice isBid ai o)
      (parseFloat o.size) o.exchange acc) []).map (AggEntry.size ∘ aggMapEntry) =
      (orders.foldl (fun acc o => insertAgg (bucketPrice isBid ai o)
      (parseFloat o.size) o.exchange acc) []).map (fun b => b.2.1) := rfl
  rw [hcomp, foldl_insertAgg_totals isBid ai orders []]
  rfl

/-- C4: the claim as frozen is false: with eleven one-unit entries in
eleven distinct buckets (increment 0.01 of a reference price of 100,
hence one quote unit per bucket), the top-10 truncation drops a bucket
and the output sizes sum to 10 against an input sum of 11 — the input is
non-empty and the increment positive. -/
theorem aggregate_size_not_conserved :
    sumSizesOut (aggregateOrderBookData (mkRat 1 100)
      [⟨"100", "1", "Coinbase"⟩, ⟨"99", "1", "Coinbase"⟩, ⟨"98", "1", "Coinbase"⟩,
       ⟨"97", "1", "Coinbase"⟩, ⟨"96", "1", "Coinbase"⟩, ⟨"95", "1", "Coinbase"⟩,
       ⟨"94", "1", "Coinbase"⟩, ⟨"93", "1", "Coinbase"⟩, ⟨"92", "1", "Coinbase"⟩,
       ⟨"91", "1", "Coinbase"⟩, ⟨"90", "1", "Coinbase"⟩] true) ≠
      sumSizesIn
      [⟨"100", "1", "Coinbase"⟩, ⟨"99", "1", "Coinbase"⟩, ⟨"98", "1", "Coinbase"⟩,
       ⟨"97", "1", "Coinbase"⟩, ⟨"96", "1", "Coinbase"⟩, ⟨"95", "1", "Coinbase"⟩,
       ⟨"94", "1", "Coinbase"⟩, ⟨"93", "1", "Coinbase"⟩, ⟨"92", "1", "Coinbase"⟩,
       ⟨"91", "1", "Coinbase"⟩, ⟨"90", "1", "Coinbase"⟩] := by
  decide

/-- C4 amended: total size is conserved by the aggregation transform for
every input of at most 10 entries (the order-book depth bound, hence
every side the pipeline feeds it): at most 10 buckets arise, so the
top-10 truncation drops nothing and the bucket totals sum to the input
total. -/
theorem aggregate_conserves_size (priceIncrement : ℚ) (orders : List OrderBookEntry)
    (isBid : Bool) (hpos : 0 < priceIncrement) (hne : orders ≠ [])
    (hlen : orders.length ≤ 10) :
    sumSizesOut (aggregateOrderBookData priceIncrement orders isBid) =
      sumSizesIn orders := by
  simp only [aggregateOrderBookData]
  split
  · exact sumSizesOut_map_entryToAgg orders
  · split
    · exact sumSizesOut_map_entryToAgg orders
    · exact aggregate_main_branch isBid _ orders hlen

/-- Witness for the amended conservation theorem at a concrete input. -/
theorem aggregate_conserves_size_witness :
    sumSizesOut (aggregateOrderBookData (mkRat 1 100)
      [⟨"100", "1", "Coinbase"⟩, ⟨"99", "2", "Coinbase"⟩] true) =
      sumSizesIn [⟨"100", "1", "Coinbase"⟩, ⟨"99", "2", "Coinbase"⟩] :=
  aggregate_conserves_size (mkRat 1 100)
    [⟨"100", "1", "Coinbase"⟩, ⟨"99", "2", "Coinbase"⟩] true
    (by decide) (by decide) (by decide)
